import Mathlib

/-!
A verification development for the schema-RAG core of the repository
(`enhanced_schema_rag.py`).  Python strings are modelled as `List Char`,
Python numbers as `Int`/`Nat`, and floating-point scores and distances as
exact rationals (`ℚ`).  Python dictionaries are modelled as association
lists that preserve insertion order, matching CPython semantics; Python
sets are modelled as duplicate-free insertion-ordered lists.  Fallible
steps (embedding generation) are modelled as oracle functions whose empty
result signals failure, exactly as in the source.
-/

namespace SchemaRAG

/-- Python strings are modelled as lists of characters. -/
abbrev Str := List Char

/-- Convert a Lean string literal to the character-list model. -/
def chars (s : String) : Str := s.data

/-- The underscore character, used as the id separator in the source. -/
def uscore : Char := '_'

/-- The dot character (MongoDB field paths). -/
def dotCh : Char := Char.ofNat 46

/-- The apostrophe character (used in answer templates). -/
def apos : Char := Char.ofNat 39

/-- The double-quote character (JSON strings). -/
def dquote : Char := Char.ofNat 34

/-- The backslash character (JSON escapes). -/
def bslash : Char := Char.ofNat 92

/-- The opening curly bracket (JSON objects). -/
def lcurly : Char := Char.ofNat 123

/-- The closing curly bracket (JSON objects). -/
def rcurly : Char := Char.ofNat 125

/-- The minus sign (decimal integers). -/
def minusCh : Char := Char.ofNat 45

/-- The opening square bracket (JSON arrays). -/
def lbrack : Char := Char.ofNat 91

/-- The closing square bracket (JSON arrays). -/
def rbrack : Char := Char.ofNat 93

/-- Lower-case a single ASCII character, modelling `str.lower` per character. -/
def lowerCh (c : Char) : Char :=
  if 'A' ≤ c ∧ c ≤ 'Z' then Char.ofNat (c.toNat + 32) else c

/-- Model of Python `str.lower()` for ASCII text. -/
def lower (s : Str) : Str := s.map lowerCh

/-- Boolean prefix test on character lists. -/
def isPre : Str → Str → Bool
  | [], _ => true
  | _ :: _, [] => false
  | p :: ps, q :: qs => p == q && isPre ps qs

/-- Model of Python `needle in haystack` substring containment. -/
def containsSub : Str → Str → Bool
  | [], p => p.isEmpty
  | q@(_ :: t), p => isPre p q || containsSub t p

/-- Drop everything up to and including the first occurrence of `p`;
`none` when `p` does not occur.  Used to model `.*`-separated regex parts. -/
def dropAfterFirst : Str → Str → Option Str
  | [], p => if p.isEmpty then some [] else none
  | q@(_ :: t), p => if isPre p q then some (q.drop p.length) else dropAfterFirst t p

/-- A regex of the shape `a.*b.*c` matches (in the `re.search` sense) iff its
literal parts occur in order; leftmost-first search is complete for such
patterns. -/
def matchParts : Str → List Str → Bool
  | _, [] => true
  | q, p :: ps =>
    match dropAfterFirst q p with
    | some rest => matchParts rest ps
    | none => false

/-- Model of Python `sep.join(xs)`. -/
def joinSep (sep : Str) : List Str → Str
  | [] => []
  | [x] => x
  | x :: xs => x ++ sep ++ joinSep sep xs

/-- The character for a single decimal digit. -/
def digitCh (d : Nat) : Char := Char.ofNat (48 + d)

/-- Fuel-driven decimal rendering of a natural number (the fuel makes the
recursion structural so that terms reduce definitionally). -/
def natStrAux : Nat → Nat → Str
  | 0, _ => []
  | fuel + 1, n =>
    if n < 10 then [digitCh n]
    else natStrAux fuel (n / 10) ++ [digitCh (n % 10)]

/-- Model of Python `str(n)` for a natural number: its decimal numeral. -/
def natStr (n : Nat) : Str := natStrAux (n + 1) n

/-- Decimal value of a digit string; inverse of `natStr`, used to prove
injectivity of numeral rendering. -/
def natVal (s : Str) : Nat := s.foldl (fun a c => 10 * a + (c.toNat - 48)) 0

/-- Model of Python `str(n)` for an integer. -/
def intStr : Int → Str
  | .ofNat n => natStr n
  | .negSucc n => minusCh :: natStr (n + 1)

/-! ## Python values

`Value` is the universe of Python values that flow through the metadata
sanitizer: `None`, booleans, integers, strings, lists, and string-keyed
dictionaries (all metadata mappings in this program are string-keyed, per
the `Dict[str, Any]` signatures in the source). -/

inductive Value where
  | vnone : Value
  | vbool : Bool → Value
  | vint : Int → Value
  | vstr : Str → Value
  | vlist : List Value → Value
  | vdict : List (Str × Value) → Value

mutual

/-- Model of Python `==` on values (structural equality). -/
def Value.beq : Value → Value → Bool
  | .vnone, .vnone => true
  | .vbool a, .vbool b => a == b
  | .vint a, .vint b => a == b
  | .vstr a, .vstr b => a == b
  | .vlist a, .vlist b => Value.beqL a b
  | .vdict a, .vdict b => Value.beqD a b
  | _, _ => false

/-- Elementwise equality of value lists. -/
def Value.beqL : List Value → List Value → Bool
  | [], [] => true
  | a :: as, b :: bs => Value.beq a b && Value.beqL as bs
  | _, _ => false

/-- Elementwise equality of key/value pair lists. -/
def Value.beqD : List (Str × Value) → List (Str × Value) → Bool
  | [], [] => true
  | (k1, v1) :: as, (k2, v2) :: bs => k1 == k2 && Value.beq v1 v2 && Value.beqD as bs
  | _, _ => false

end

instance : BEq Value := ⟨Value.beq⟩

mutual

/-- Model of Python `str(v)`.  Scalars render exactly as CPython renders
them; containers render via `pyRepr` of their elements, as CPython does.
(String `repr` is modelled without quote-escaping of embedded apostrophes,
a simplification that nothing in this development depends on.) -/
def pyStr : Value → Str
  | .vnone => chars ("None")
  | .vbool true => chars ("True")
  | .vbool false => chars ("False")
  | .vint n => intStr n
  | .vstr s => s
  | .vlist l => chars ("[") ++ joinSep (chars (", ")) (pyReprL l) ++ chars ("]")
  | .vdict d => [lcurly] ++ joinSep (chars (", ")) (pyReprD d) ++ [rcurly]

/-- Model of Python `repr(v)` (differs from `str` only on strings). -/
def pyRepr : Value → Str
  | .vstr s => apos :: s ++ [apos]
  | .vnone => chars ("None")
  | .vbool true => chars ("True")
  | .vbool false => chars ("False")
  | .vint n => intStr n
  | .vlist l => chars ("[") ++ joinSep (chars (", ")) (pyReprL l) ++ chars ("]")
  | .vdict d => [lcurly] ++ joinSep (chars (", ")) (pyReprD d) ++ [rcurly]

/-- The `repr`s of each list element. -/
def pyReprL : List Value → List Str
  | [] => []
  | v :: vs => pyRepr v :: pyReprL vs

/-- The `repr`s of each dictionary item, rendered `key: value`. -/
def pyReprD : List (Str × Value) → List Str
  | [] => []
  | (k, v) :: ps => (apos :: k ++ [apos] ++ chars (": ") ++ pyRepr v) :: pyReprD ps

end

/-! ## JSON serialization (model of `json.dumps` with default options)

`json.dumps` on the value universe above always succeeds; with default
options it separates items by `", "` and keys from values by `": "`.
String escaping is modelled for the two structurally significant escapes
(double quote and backslash); control characters and non-ASCII escapes are
orthogonal to every property proved here. -/

/-- Escape one character of a JSON string. -/
def jsonEscapeCh (c : Char) : Str :=
  if c == dquote || c == bslash then [bslash, c] else [c]

/-- Escape a JSON string body. -/
def jsonEscape : Str → Str
  | [] => []
  | c :: t => jsonEscapeCh c ++ jsonEscape t

mutual

/-- Model of `json.dumps(v)` with default options. -/
def jsonDumps : Value → Str
  | .vnone => chars ("null")
  | .vbool true => chars ("true")
  | .vbool false => chars ("false")
  | .vint n => intStr n
  | .vstr s => dquote :: jsonEscape s ++ [dquote]
  | .vlist [] => [lbrack, rbrack]
  | .vlist (v :: vs) => lbrack :: jsonDumps v ++ jsonDumpsTail vs ++ [rbrack]
  | .vdict [] => [lcurly, rcurly]
  | .vdict (p :: ps) => lcurly :: jsonDumpsEntry p ++ jsonDumpsPairsTail ps ++ [rcurly]

/-- Trailing list items, each preceded by the `", "` separator. -/
def jsonDumpsTail : List Value → Str
  | [] => []
  | v :: vs => chars (", ") ++ jsonDumps v ++ jsonDumpsTail vs

/-- One object entry, rendered `"key": value`. -/
def jsonDumpsEntry : Str × Value → Str
  | (k, v) => dquote :: jsonEscape k ++ [dquote] ++ chars (": ") ++ jsonDumps v

/-- Trailing object entries, each preceded by the `", "` separator. -/
def jsonDumpsPairsTail : List (Str × Value) → Str
  | [] => []
  | p :: ps => chars (", ") ++ jsonDumpsEntry p ++ jsonDumpsPairsTail ps

end

/-! ## JSON parsing (model of `json.loads` on the serializer's output
grammar)

A recursive-descent parser for the exact canonical grammar that
`jsonDumps` emits (`json.loads` accepts a superset; the canonical subset
suffices to show that the serialized text parses back).  The `Nat` fuel
bounds nesting depth and makes the recursion structural. -/

/-- Read a JSON string body up to the unescaped closing quote, undoing
escapes. -/
def parseString : Str → Option (Str × Str)
  | [] => none
  | c :: t =>
    if c == dquote then some ([], t)
    else if c == bslash then
      match t with
      | [] => none
      | e :: t2 =>
        match parseString t2 with
        | some (s, r) => some (e :: s, r)
        | none => none
    else
      match parseString t with
      | some (s, r) => some (c :: s, r)
      | none => none

/-- Decimal-digit test. -/
def isDigitCh (c : Char) : Bool := 48 ≤ c.toNat && c.toNat ≤ 57

/-- Longest digit prefix and the remainder. -/
def takeDigits : Str → Str × Str
  | [] => ([], [])
  | c :: t =>
    if isDigitCh c then
      let p := takeDigits t
      (c :: p.1, p.2)
    else ([], c :: t)

/-- Read a decimal integer token (optional leading minus). -/
def parseIntTok : Str → Option (Int × Str)
  | [] => none
  | c :: t =>
    if c == minusCh then
      match takeDigits t with
      | ([], _) => none
      | (ds, r) => some (-(natVal ds : Int), r)
    else
      match takeDigits (c :: t) with
      | ([], _) => none
      | (ds, r) => some ((natVal ds : Int), r)

mutual

/-- Parse one JSON value. -/
def parseValue : Nat → Str → Option (Value × Str)
  | 0, _ => none
  | fuel + 1, s =>
    if isPre (chars ("null")) s then some (.vnone, s.drop 4)
    else if isPre (chars ("true")) s then some (.vbool true, s.drop 4)
    else if isPre (chars ("false")) s then some (.vbool false, s.drop 5)
    else
      match s with
      | [] => none
      | c :: t =>
        if c == dquote then
          (parseString t).map (fun p => (.vstr p.1, p.2))
        else if c == lbrack then
          match t with
          | [] => none
          | d :: t2 =>
            if d == rbrack then some (.vlist [], t2)
            else
              (parseValue fuel t).bind (fun pv =>
                (parseItems fuel pv.2).map (fun pi2 => (.vlist (pv.1 :: pi2.1), pi2.2)))
        else if c == lcurly then
          match t with
          | [] => none
          | d :: t2 =>
            if d == rcurly then some (.vdict [], t2)
            else
              (parseEntry fuel t).bind (fun pe =>
                (parsePairs fuel pe.2).map (fun pp => (.vdict (pe.1 :: pp.1), pp.2)))
        else
          (parseIntTok (c :: t)).map (fun pn => (.vint pn.1, pn.2))

/-- Parse the rest of an array after its first element: a closing bracket,
or `", "`-separated further elements. -/
def parseItems : Nat → Str → Option (List Value × Str)
  | 0, _ => none
  | fuel + 1, s =>
    match s with
    | [] => none
    | c :: t =>
      if c == rbrack then some ([], t)
      else if isPre (chars (", ")) (c :: t) then
        (parseValue fuel ((c :: t).drop 2)).bind (fun pv =>
          (parseItems fuel pv.2).map (fun pi2 => (pv.1 :: pi2.1, pi2.2)))
      else none

/-- Parse one `"key": value` object entry. -/
def parseEntry : Nat → Str → Option ((Str × Value) × Str)
  | 0, _ => none
  | fuel + 1, s =>
    match s with
    | [] => none
    | c :: t =>
      if c == dquote then
        (parseString t).bind (fun pk =>
          if isPre (chars (": ")) pk.2 then
            (parseValue fuel (pk.2.drop 2)).map (fun pv => ((pk.1, pv.1), pv.2))
          else none)
      else none

/-- Parse the rest of an object after its first entry: a closing brace, or
`", "`-separated further entries. -/
def parsePairs : Nat → Str → Option (List (Str × Value) × Str)
  | 0, _ => none
  | fuel + 1, s =>
    match s with
    | [] => none
    | c :: t =>
      if c == rcurly then some ([], t)
      else if isPre (chars (", ")) (c :: t) then
        (parseEntry fuel ((c :: t).drop 2)).bind (fun pe =>
          (parsePairs fuel pe.2).map (fun pp => (pe.1 :: pp.1, pp.2)))
      else none

end

mutual

/-- Fuel needed by `parseValue` on the serialization of a value. -/
def costV : Value → Nat
  | .vnone => 1
  | .vbool _ => 1
  | .vint _ => 1
  | .vstr _ => 1
  | .vlist [] => 1
  | .vlist (v :: vs) => 1 + costV v + costI vs
  | .vdict [] => 1
  | .vdict (p :: ps) => 1 + costE p + costP ps

/-- Fuel needed by `parseItems` on serialized trailing items. -/
def costI : List Value → Nat
  | [] => 1
  | v :: vs => 1 + costV v + costI vs

/-- Fuel needed by `parseEntry` on a serialized entry. -/
def costE : Str × Value → Nat
  | (_, v) => 1 + costV v

/-- Fuel needed by `parsePairs` on serialized trailing entries. -/
def costP : List (Str × Value) → Nat
  | [] => 1
  | p :: ps => 1 + costE p + costP ps

end

/-- The remainder after a serialized value never starts with a digit (it
is empty or starts with a separator or closing bracket); this keeps the
longest-munch integer token from swallowing it. -/
def noDigitHead : Str → Prop
  | [] => True
  | c :: _ => isDigitCh c = false

/-- Model of `json.loads` restricted to the canonical output grammar:
parse one value and require the input to be fully consumed. -/
def jsonParse (s : Str) : Option Value :=
  match parseValue (s.length + 1) s with
  | some (v, []) => some v
  | _ => none

/-! ## The metadata sanitizer (`_sanitize_metadata`) -/

/-- Model of the per-value branch of `_sanitize_metadata`: `None` becomes
the empty string; scalars pass through; lists become comma-joined string
forms (empty list becomes the empty string); dicts become JSON text.  The
source's final `str(value)` fallback is unreachable on this value
universe, since every constructor is covered by an earlier branch. -/
def sanitizeValue : Value → Value
  | .vnone => .vstr []
  | .vbool b => .vbool b
  | .vint n => .vint n
  | .vstr s => .vstr s
  | .vlist l => .vstr (if l.isEmpty then [] else joinSep [','] (l.map pyStr))
  | .vdict d => .vstr (jsonDumps (.vdict d))

/-- Model of `_sanitize_metadata`: the sanitizer applied per key, keeping
insertion order (Python dict keys are unique, so rebuilding the dict is a
per-entry map). -/
def sanitize_metadata (m : List (Str × Value)) : List (Str × Value) :=
  m.map (fun kv => (kv.1, sanitizeValue kv.2))

/-- ChromaDB-compatible scalar check: string, integer, or boolean (floats
do not arise on this value universe). -/
def isScalar : Value → Bool
  | .vstr _ => true
  | .vint _ => true
  | .vbool _ => true
  | _ => false

/-! ## The query classifier (`_is_metadata_query`) -/

/-- The source's `metadata_patterns` list, with each `.*`-separated regex
broken into its literal parts. -/
def metadataPatterns : List (List Str) :=
  [ [chars ("how many"), chars ("table")],
    [chars ("how many"), chars ("column")],
    [chars ("how many"), chars ("database")],
    [chars ("count"), chars ("table")],
    [chars ("count"), chars ("column")],
    [chars ("list"), chars ("table")],
    [chars ("list"), chars ("column")],
    [chars ("show"), chars ("all"), chars ("table")],
    [chars ("what"), chars ("table"), chars ("exist")],
    [chars ("give me"), chars ("overview")],
    [chars ("summary")],
    [chars ("statistics")] ]

/-- Model of `_is_metadata_query`: lowercase the query, then test whether
any pattern matches anywhere in it. -/
def is_metadata_query (query : Str) : Bool :=
  metadataPatterns.any (fun ps => matchParts (lower query) ps)

/-- The two query classes. -/
inductive QueryKind where
  | metadata : QueryKind
  | semantic : QueryKind
deriving DecidableEq

/-- The classification step of `search_schema`: metadata when any pattern
matches, semantic otherwise. -/
def classify (query : Str) : QueryKind :=
  if is_metadata_query query then .metadata else .semantic

/-! ## Schema input shapes (normalized discovery output, spec section 6) -/

/-- One relational column description (`{name, type, null, default?}`). -/
structure Column where
  name : Str
  ctype : Str
  nullb : Bool
  default : Option Str

/-- One relational table description. -/
structure TableInfo where
  columns : List Column
  primary_keys : List Str

/-- One foreign-key relationship. -/
structure Rel where
  from_table : Str
  from_column : Str
  to_table : Str
  to_column : Str

/-- One MongoDB field description. -/
structure FieldInfo where
  types : List Str
  count : Nat
  null_count : Nat

/-- One MongoDB collection description. -/
structure CollectionInfo where
  document_count : Nat
  fields : List (Str × FieldInfo)

/-- The normalized schema dictionary passed to `_create_table_documents`;
`schema.get("tables", {})`, `schema.get("relationships", [])` and
`schema.get("collections", {})` are modelled as total fields defaulting to
empty, mirroring the source's defensive `.get` defaults. -/
structure Schema where
  tables : List (Str × TableInfo)
  relationships : List Rel
  collections : List (Str × CollectionInfo)

/-- The database-type enumeration from `database_connector.py`. -/
inductive DatabaseType where
  | mysql : DatabaseType
  | postgresql : DatabaseType
  | mongodb : DatabaseType
deriving DecidableEq

/-- The `.value` string of each enum member. -/
def DatabaseType.value : DatabaseType → Str
  | .mysql => chars ("mysql")
  | .postgresql => chars ("postgresql")
  | .mongodb => chars ("mongodb")

/-- The connection-config slice the document builder reads
(`db_config['database']`, `db_config['host']`). -/
structure DbConfig where
  database : Str
  host : Str

/-- A schema document prepared for RAG storage (`SchemaDocument`); the
`embedding` field keeps the dataclass default `None` until storage time. -/
structure SchemaDocument where
  id : Str
  content : Str
  metadata : List (Str × Value)
  embedding : Option (List ℚ) := none

/-! ## Business-purpose inference and content formatting -/

/-- Scan an ordered keyword→purpose mapping, returning the first purpose
whose keyword occurs in the (already lowercased) name. -/
def inferFrom : List (Str × Str) → Str → Option Str
  | [], _ => none
  | (k, p) :: rest, nameLower =>
    if containsSub nameLower k then some p else inferFrom rest nameLower

/-- The table purpose mapping of `_infer_table_purpose`, in source order. -/
def tablePurposeMap : List (Str × Str) :=
  [ (chars ("user"), chars ("user accounts and profiles")),
    (chars ("customer"), chars ("customer information and details")),
    (chars ("order"), chars ("purchase orders and transactions")),
    (chars ("product"), chars ("product catalog and inventory")),
    (chars ("invoice"), chars ("billing and invoice records")),
    (chars ("payment"), chars ("payment transactions and methods")),
    (chars ("employee"), chars ("staff and employee records")),
    (chars ("category"), chars ("classification and categorization data")),
    (chars ("log"), chars ("system logs and audit trails")),
    (chars ("session"), chars ("user sessions and authentication")),
    (chars ("address"), chars ("location and address information")),
    (chars ("review"), chars ("product or service reviews")),
    (chars ("cart"), chars ("shopping cart and basket data")),
    (chars ("student"), chars ("student information and academic records")),
    (chars ("course"), chars ("course information and curriculum data")),
    (chars ("teacher"), chars ("teacher profiles and assignments")),
    (chars ("grade"), chars ("academic grades and assessments")),
    (chars ("class"), chars ("class schedules and information")),
    (chars ("school"), chars ("school or institution data")) ]

/-- The column purpose mapping of `_infer_column_purpose`, in source order. -/
def columnPurposeMap : List (Str × Str) :=
  [ (chars ("id"), chars ("unique identifier")),
    (chars ("name"), chars ("name or title")),
    (chars ("email"), chars ("email address")),
    (chars ("password"), chars ("authentication credentials")),
    (chars ("phone"), chars ("phone number")),
    (chars ("address"), chars ("physical address")),
    (chars ("date"), chars ("date information")),
    (chars ("time"), chars ("time information")),
    (chars ("price"), chars ("monetary amount")),
    (chars ("amount"), chars ("quantity or monetary value")),
    (chars ("status"), chars ("current state or status")),
    (chars ("created"), chars ("creation timestamp")),
    (chars ("updated"), chars ("last modification timestamp")),
    (chars ("deleted"), chars ("deletion timestamp")),
    (chars ("active"), chars ("active/inactive status")),
    (chars ("description"), chars ("detailed description")),
    (chars ("title"), chars ("title or heading")),
    (chars ("age"), chars ("age information")),
    (chars ("grade"), chars ("grade or score")),
    (chars ("level"), chars ("level or rank")),
    (chars ("department"), chars ("department or division")) ]

/-- Model of `_infer_table_purpose`. -/
def infer_table_purpose (table_name : Str) : Str :=
  match inferFrom tablePurposeMap (lower table_name) with
  | some p => p
  | none => chars ("data related to ") ++ table_name

/-- Model of `_infer_column_purpose`. -/
def infer_column_purpose (column_name : Str) : Str :=
  match inferFrom columnPurposeMap (lower column_name) with
  | some p => p
  | none => chars ("information about ") ++ column_name

/-- The newline terminator used by every content line. -/
def nl : Str := [Char.ofNat 10]

/-- One line of the column enumeration inside table content. -/
def tableColumnLine (table_info : TableInfo) (col : Column) : Str :=
  chars ("- ") ++ col.name ++ chars (" (") ++ col.ctype ++ chars (")")
    ++ (if col.nullb then [] else chars (" NOT NULL"))
    ++ (if col.name ∈ table_info.primary_keys then chars (" PRIMARY KEY") else [])
    ++ nl

/-- Model of `_format_table_content`. -/
def format_table_content (table_name : Str) (table_info : TableInfo)
    (db_type : DatabaseType) : Str :=
  chars ("Table: ") ++ table_name ++ chars (" in ") ++ db_type.value
      ++ chars (" database") ++ nl
    ++ chars ("Description: This is a ") ++ table_name ++ chars (" table with ")
      ++ natStr table_info.columns.length ++ chars (" columns.") ++ nl
    ++ chars ("Keywords: table, ") ++ table_name
      ++ chars (", database table, data storage, ") ++ db_type.value ++ nl
    ++ (if table_info.columns.isEmpty then []
        else chars ("Columns and fields:") ++ nl
          ++ (table_info.columns.map (tableColumnLine table_info)).flatten)
    ++ (if table_info.primary_keys.isEmpty then []
        else chars ("Primary Keys: ")
          ++ joinSep (chars (", ")) table_info.primary_keys ++ nl)
    ++ chars ("Business Context: The ") ++ table_name
      ++ chars (" table likely contains information about ")
      ++ infer_table_purpose table_name ++ chars (".") ++ nl
    ++ chars ("Related terms: ") ++ table_name ++ chars (" data, ") ++ table_name
      ++ chars (" information, ") ++ table_name ++ chars (" records") ++ nl

/-- Model of `_format_column_content`. -/
def format_column_content (table_name : Str) (col : Column)
    (_db_type : DatabaseType) : Str :=
  chars ("Column: ") ++ col.name ++ chars (" in table ") ++ table_name ++ nl
    ++ chars ("Data Type: ") ++ col.ctype ++ nl
    ++ chars ("Nullable: ") ++ (if col.nullb then chars ("Yes") else chars ("No")) ++ nl
    ++ chars ("Keywords: column, field, ") ++ col.name ++ chars (", ") ++ table_name
      ++ chars (", data field") ++ nl
    ++ (match col.default with
        | some d => if d.isEmpty then [] else chars ("Default Value: ") ++ d ++ nl
        | none => [])
    ++ chars ("Business Context: The ") ++ col.name
      ++ chars (" field likely represents ")
      ++ infer_column_purpose col.name ++ chars (".") ++ nl

/-- Model of `_format_relationship_content`. -/
def format_relationship_content (rel : Rel) (db_type : DatabaseType) : Str :=
  chars ("Foreign Key Relationship in ") ++ db_type.value ++ chars (" database") ++ nl
    ++ chars ("From: ") ++ rel.from_table ++ [dotCh] ++ rel.from_column ++ nl
    ++ chars ("To: ") ++ rel.to_table ++ [dotCh] ++ rel.to_column ++ nl
    ++ chars ("Keywords: relationship, foreign key, connection, join, link") ++ nl
    ++ chars ("This relationship connects ") ++ rel.from_table ++ chars (" to ")
      ++ rel.to_table ++ chars (" through the ") ++ rel.from_column
      ++ chars (" and ") ++ rel.to_column ++ chars (" columns.") ++ nl

/-- One line of the field summary inside collection content. -/
def fieldSummaryLine (p : Str × FieldInfo) : Str :=
  chars ("- ") ++ p.1 ++ chars (": ") ++ joinSep (chars (", ")) p.2.types ++ nl

/-- Model of `_format_collection_content`. -/
def format_collection_content (collection_name : Str) (info : CollectionInfo) : Str :=
  chars ("Collection: ") ++ collection_name ++ chars (" in MongoDB database") ++ nl
    ++ chars ("Document Count: ") ++ natStr info.document_count ++ nl
    ++ chars ("Fields: ") ++ natStr info.fields.length ++ nl
    ++ chars ("Keywords: collection, ") ++ collection_name
      ++ chars (", MongoDB, documents, NoSQL") ++ nl
    ++ (if info.fields.isEmpty then []
        else chars ("Field Summary:") ++ nl
          ++ ((info.fields.take 10).map fieldSummaryLine).flatten)
    ++ chars ("Business Context: The ") ++ collection_name
      ++ chars (" collection likely stores ")
      ++ infer_table_purpose collection_name ++ chars (".") ++ nl

/-- One-decimal rendering of the null percentage `null_count / count * 100`,
rounding half up (the source formats an IEEE double with `"{:.1f}"`; exact
rational rounding is used here, which nothing downstream depends on). -/
def pctStr (null_count total : Nat) : Str :=
  if total = 0 then chars ("0.0")
  else
    let tenths := (2000 * null_count / total + 1) / 2
    natStr (tenths / 10) ++ [dotCh] ++ natStr (tenths % 10)

/-- Model of `_format_field_content`. -/
def format_field_content (collection_name field_name : Str) (info : FieldInfo) : Str :=
  chars ("Field: ") ++ field_name ++ chars (" in collection ") ++ collection_name ++ nl
    ++ chars ("Data Types: ") ++ joinSep (chars (", ")) info.types ++ nl
    ++ chars ("Keywords: field, ") ++ field_name ++ chars (", ") ++ collection_name
      ++ chars (", MongoDB field") ++ nl
    ++ chars ("Occurrences: ") ++ natStr info.count ++ chars (" documents") ++ nl
    ++ chars ("Null Values: ") ++ natStr info.null_count ++ chars (" (")
      ++ pctStr info.null_count info.count ++ chars ("%)") ++ nl
    ++ chars ("Business Context: The ") ++ field_name
      ++ chars (" field likely represents ")
      ++ infer_column_purpose field_name ++ chars (".") ++ nl

/-! ## The document builder (`_create_table_documents`) -/

/-- Model of Python `s.replace(old, new)` for single-character `old`/`new`
(used for `field_name.replace('.', '_')`). -/
def replaceCh (old new : Char) : Str → Str
  | [] => []
  | c :: t => (if c == old then new else c) :: replaceCh old new t

/-- The common id prefix `f"{database}_{db_type.value}_"`. -/
def idPrefix (db_type : DatabaseType) (cfg : DbConfig) : Str :=
  cfg.database ++ [uscore] ++ db_type.value ++ [uscore]

/-- The table document for one table. -/
def tableDoc (db_type : DatabaseType) (cfg : DbConfig)
    (table_name : Str) (ti : TableInfo) : SchemaDocument where
  id := idPrefix db_type cfg ++ table_name
  content := format_table_content table_name ti db_type
  metadata := sanitize_metadata
    [ (chars ("type"), .vstr (chars ("table"))),
      (chars ("database_type"), .vstr db_type.value),
      (chars ("database_name"), .vstr cfg.database),
      (chars ("host"), .vstr cfg.host),
      (chars ("table_name"), .vstr table_name),
      (chars ("column_count"), .vint ti.columns.length),
      (chars ("has_primary_key"), .vbool (0 < ti.primary_keys.length)),
      (chars ("primary_keys"), .vlist (ti.primary_keys.map .vstr)) ]

/-- The column document for one column of a table. -/
def columnDoc (db_type : DatabaseType) (cfg : DbConfig)
    (table_name : Str) (ti : TableInfo) (col : Column) : SchemaDocument where
  id := idPrefix db_type cfg ++ table_name ++ [uscore] ++ col.name
  content := format_column_content table_name col db_type
  metadata := sanitize_metadata
    [ (chars ("type"), .vstr (chars ("column"))),
      (chars ("database_type"), .vstr db_type.value),
      (chars ("database_name"), .vstr cfg.database),
      (chars ("host"), .vstr cfg.host),
      (chars ("table_name"), .vstr table_name),
      (chars ("column_name"), .vstr col.name),
      (chars ("column_type"), .vstr col.ctype),
      (chars ("is_nullable"), .vbool col.nullb),
      (chars ("is_primary_key"), .vbool (col.name ∈ ti.primary_keys)) ]

/-- The relationship document for the `i`-th relationship. -/
def relationshipDoc (db_type : DatabaseType) (cfg : DbConfig)
    (i : Nat) (rel : Rel) : SchemaDocument where
  id := idPrefix db_type cfg ++ chars ("relationship") ++ [uscore] ++ natStr i
  content := format_relationship_content rel db_type
  metadata := sanitize_metadata
    [ (chars ("type"), .vstr (chars ("relationship"))),
      (chars ("database_type"), .vstr db_type.value),
      (chars ("database_name"), .vstr cfg.database),
      (chars ("host"), .vstr cfg.host),
      (chars ("from_table"), .vstr rel.from_table),
      (chars ("from_column"), .vstr rel.from_column),
      (chars ("to_table"), .vstr rel.to_table),
      (chars ("to_column"), .vstr rel.to_column) ]

/-- The collection document for one MongoDB collection. -/
def collectionDoc (db_type : DatabaseType) (cfg : DbConfig)
    (collection_name : Str) (info : CollectionInfo) : SchemaDocument where
  id := idPrefix db_type cfg ++ collection_name
  content := format_collection_content collection_name info
  metadata := sanitize_metadata
    [ (chars ("type"), .vstr (chars ("collection"))),
      (chars ("database_type"), .vstr db_type.value),
      (chars ("database_name"), .vstr cfg.database),
      (chars ("host"), .vstr cfg.host),
      (chars ("collection_name"), .vstr collection_name),
      (chars ("document_count"), .vint info.document_count),
      (chars ("field_count"), .vint info.fields.length) ]

/-- The field document for one MongoDB field. -/
def fieldDoc (db_type : DatabaseType) (cfg : DbConfig)
    (collection_name field_name : Str) (info : FieldInfo) : SchemaDocument where
  id := idPrefix db_type cfg ++ collection_name ++ [uscore]
          ++ replaceCh dotCh uscore field_name
  content := format_field_content collection_name field_name info
  metadata := sanitize_metadata
    [ (chars ("type"), .vstr (chars ("field"))),
      (chars ("database_type"), .vstr db_type.value),
      (chars ("database_name"), .vstr cfg.database),
      (chars ("host"), .vstr cfg.host),
      (chars ("collection_name"), .vstr collection_name),
      (chars ("field_name"), .vstr field_name),
      (chars ("field_types"), .vlist (info.types.map .vstr)),
      (chars ("field_count"), .vint info.count),
      (chars ("null_count"), .vint info.null_count) ]

/-- The per-table loop body: the table document followed by its column
documents. -/
def sqlTableBlock (db_type : DatabaseType) (cfg : DbConfig)
    (p : Str × TableInfo) : List SchemaDocument :=
  tableDoc db_type cfg p.1 p.2 :: p.2.columns.map (columnDoc db_type cfg p.1 p.2)

/-- The `for table_name, table_info in tables.items()` loop. -/
def sqlTableDocs (db_type : DatabaseType) (cfg : DbConfig) :
    List (Str × TableInfo) → List SchemaDocument
  | [] => []
  | p :: rest => sqlTableBlock db_type cfg p ++ sqlTableDocs db_type cfg rest

/-- The `for i, rel in enumerate(relationships)` loop, carrying the running
index explicitly. -/
def relDocs (db_type : DatabaseType) (cfg : DbConfig) (i : Nat) :
    List Rel → List SchemaDocument
  | [] => []
  | r :: rest => relationshipDoc db_type cfg i r :: relDocs db_type cfg (i + 1) rest

/-- The per-collection loop body: the collection document followed by its
field documents. -/
def mongoCollectionBlock (db_type : DatabaseType) (cfg : DbConfig)
    (p : Str × CollectionInfo) : List SchemaDocument :=
  collectionDoc db_type cfg p.1 p.2
    :: p.2.fields.map (fun f => fieldDoc db_type cfg p.1 f.1 f.2)

/-- The `for collection_name, collection_info in collections.items()` loop. -/
def mongoCollectionDocs (db_type : DatabaseType) (cfg : DbConfig) :
    List (Str × CollectionInfo) → List SchemaDocument
  | [] => []
  | p :: rest => mongoCollectionBlock db_type cfg p ++ mongoCollectionDocs db_type cfg rest

/-- Model of `_create_table_documents`: relational branch for MySQL and
PostgreSQL (tables, then relationships), MongoDB branch for collections. -/
def create_table_documents (schema : Schema) (db_type : DatabaseType)
    (cfg : DbConfig) : List SchemaDocument :=
  match db_type with
  | .mysql | .postgresql =>
    sqlTableDocs db_type cfg schema.tables
      ++ relDocs db_type cfg 0 schema.relationships
  | .mongodb => mongoCollectionDocs db_type cfg schema.collections

/-! ## The vector store (ChromaDB collection, modelled at its interface) -/

/-- One stored record: id, content, sanitized metadata, embedding.  A
record is only ever written together with a non-empty embedding. -/
structure Entry where
  id : Str
  content : Str
  metadata : List (Str × Value)
  embedding : List ℚ

/-- The store is the collection's records in insertion order. -/
abbrev Store := List Entry

/-- Upsert one record: overwrite in place when the id exists, append
otherwise. -/
def upsertOne : Store → Entry → Store
  | [], e => [e]
  | x :: rest, e => if x.id == e.id then e :: rest else x :: upsertOne rest e

/-- Model of `collection.upsert` for a batch. -/
def upsertAll (st : Store) : List Entry → Store
  | [] => st
  | e :: rest => upsertAll (upsertOne st e) rest

/-- The embedding-generation loop of `store_schema`: keep the documents
whose embedding generation succeeds (non-empty vector), skipping failures. -/
def keptEntries (emb : Str → List ℚ) : List SchemaDocument → List Entry
  | [] => []
  | d :: rest =>
    if (emb d.content).isEmpty then keptEntries emb rest
    else ⟨d.id, d.content, d.metadata, emb d.content⟩ :: keptEntries emb rest

/-- Model of `store_schema`: build documents, embed each, skip failures,
upsert the survivors; `false` when no documents were built or none
embedded. -/
def store_schema (st : Store) (emb : Str → List ℚ) (schema : Schema)
    (db_type : DatabaseType) (cfg : DbConfig) : Store × Bool :=
  let documents := create_table_documents schema db_type cfg
  if documents.isEmpty then (st, false)
  else
    let kept := keptEntries emb documents
    if kept.isEmpty then (st, false)
    else (upsertAll st kept, true)

/-! ## The overview aggregator (`get_database_overview`) -/

/-- Per-database aggregate, as built by the overview scan.  `tables` and
`collections` are Python sets; they are modelled as duplicate-free lists
in insertion order. -/
structure DbInfo where
  dtype : Value
  document_count : Nat
  tables : List Value
  collections : List Value

/-- The overview dictionary. -/
structure Overview where
  total_documents : Nat
  databases : List (Value × DbInfo)
  document_types : List (Value × Nat)

/-- Association-list lookup keyed by Python equality. -/
def vlookup {α : Type} : List (Value × α) → Value → Option α
  | [], _ => none
  | (k, v) :: rest, key => if Value.beq k key then some v else vlookup rest key

/-- Update the first entry with the given key. -/
def vupdate {α : Type} (f : α → α) : List (Value × α) → Value → List (Value × α)
  | [], _ => []
  | (k, v) :: rest, key =>
    if Value.beq k key then (k, f v) :: rest else (k, v) :: vupdate f rest key

/-- Python `d.get(key, default)` on a metadata record. -/
def metaGetD (m : List (Str × Value)) (key : Str) (dflt : Value) : Value :=
  match m.find? (fun kv => kv.1 == key) with
  | some kv => kv.2
  | none => dflt

/-- Python `key in d` on a metadata record. -/
def metaHas (m : List (Str × Value)) (key : Str) : Bool :=
  m.any (fun kv => kv.1 == key)

/-- Python `set.add`, on the insertion-ordered duplicate-free list model. -/
def setAdd (l : List Value) (v : Value) : List Value :=
  if l.any (fun x => Value.beq x v) then l else l ++ [v]

/-- Process one stored metadata record into the running overview, exactly
mirroring the loop body of `get_database_overview`. -/
def overviewStep (ov : Overview) (m : List (Str × Value)) : Overview :=
  let db_name := metaGetD m (chars ("database_name")) (.vstr (chars ("unknown")))
  let db_type := metaGetD m (chars ("database_type")) (.vstr (chars ("unknown")))
  let doc_type := metaGetD m (chars ("type")) (.vstr (chars ("unknown")))
  let dbs0 :=
    if (vlookup ov.databases db_name).isSome then ov.databases
    else ov.databases ++ [(db_name, ⟨db_type, 0, [], []⟩)]
  let dbs1 := vupdate (fun i => { i with document_count := i.document_count + 1 }) dbs0 db_name
  let dbs2 :=
    if metaHas m (chars ("table_name")) then
      vupdate (fun i => { i with
        tables := setAdd i.tables (metaGetD m (chars ("table_name")) .vnone) }) dbs1 db_name
    else dbs1
  let dbs3 :=
    if metaHas m (chars ("collection_name")) then
      vupdate (fun i => { i with
        collections := setAdd i.collections
          (metaGetD m (chars ("collection_name")) .vnone) }) dbs2 db_name
    else dbs2
  let types :=
    match vlookup ov.document_types doc_type with
    | some n => vupdate (fun _ => n + 1) ov.document_types doc_type
    | none => ov.document_types ++ [(doc_type, 1)]
  { total_documents := ov.total_documents, databases := dbs3, document_types := types }

/-- Fold the overview scan over the stored metadata records. -/
def overviewScan : Overview → List (List (Str × Value)) → Overview
  | ov, [] => ov
  | ov, m :: rest => overviewScan (overviewStep ov m) rest

/-- Model of `get_database_overview`: total count from the id list, then
one scan over all stored metadata.  Store-layer exceptions (which the
source converts to the all-empty overview) are not modelled. -/
def get_database_overview (st : Store) : Overview :=
  overviewScan ⟨st.length, [], []⟩ (st.map (·.metadata))

/-! ## The metadata answerer (`_answer_metadata_query`) -/

/-- One value of the `details` payload: a list of names, or a name→count
breakdown. -/
inductive DetailVal where
  | vals : List Value → DetailVal
  | counts : List (Value × Nat) → DetailVal

/-- The `details` dictionary: either an entry list built up key by key, or
the whole overview (the `details = overview` assignment in the
overview/summary branch). -/
inductive Details where
  | entries : List (Str × DetailVal) → Details
  | full : Overview → Details

/-- The response dictionary of `_answer_metadata_query`. -/
structure MetaResponse where
  rtype : Str
  query : Str
  answer : Str
  details : Details

/-- Python's `'s' if n != 1 else ''` pluralization. -/
def plural (n : Nat) : Str := if n ≠ 1 then chars ("s") else []

/-- A name wrapped in apostrophes, as in `f"The '{database_filter}' ..."`. -/
def quoted (f : Str) : Str := apos :: f ++ [apos]

/-- The database-filter branch of `_answer_metadata_query` (filter present
and found in the overview). -/
def filterBranch (f : Str) (info : DbInfo) (ov : Overview)
    (ql q : Str) : MetaResponse :=
  if containsSub ql (chars ("table")) then
    let tc := info.tables.length
    let cc := info.collections.length
    if 0 < tc then
      ⟨chars ("metadata_answer"), q,
        chars ("The ") ++ quoted f ++ chars (" database has ") ++ natStr tc
          ++ chars (" table") ++ plural tc ++ chars ("."),
        .entries [(chars ("tables"), .vals info.tables)]⟩
    else if 0 < cc then
      ⟨chars ("metadata_answer"), q,
        chars ("The ") ++ quoted f ++ chars (" database has ") ++ natStr cc
          ++ chars (" collection") ++ plural cc ++ chars ("."),
        .entries [(chars ("collections"), .vals info.collections)]⟩
    else
      ⟨chars ("metadata_answer"), q,
        chars ("The ") ++ quoted f
          ++ chars (" database has no tables or collections stored in the RAG system."),
        .entries []⟩
  else if containsSub ql (chars ("column")) then
    let cc := (ov.document_types.filter
      (fun p => Value.beq p.1 (.vstr (chars ("column"))))).length
    ⟨chars ("metadata_answer"), q,
      chars ("The ") ++ quoted f ++ chars (" database has approximately ")
        ++ natStr cc ++ chars (" columns across all tables."),
      .entries []⟩
  else ⟨chars ("metadata_answer"), q, [], .entries []⟩

/-- The all-databases branch of `_answer_metadata_query` (no filter, or
filter not found). -/
def allBranch (ov : Overview) (ql q : Str) : MetaResponse :=
  let td := ov.databases.length
  let tt := (ov.databases.map (fun p => p.2.tables.length)).sum
  let tc := (ov.databases.map (fun p => p.2.collections.length)).sum
  if containsSub ql (chars ("table")) then
    let a1 :=
      if 0 < tt then
        chars ("There are ") ++ natStr tt ++ chars (" table") ++ plural tt
          ++ chars (" across ") ++ natStr td ++ chars (" database") ++ plural td
          ++ chars (".")
      else []
    let d1 :=
      if 0 < tt then
        [(chars ("breakdown"),
          DetailVal.counts (ov.databases.map (fun p => (p.1, p.2.tables.length))))]
      else []
    let a2 :=
      if 0 < tc then
        a1 ++ chars (" Additionally, there are ") ++ natStr tc
          ++ chars (" MongoDB collection") ++ plural tc ++ chars (".")
      else a1
    let d2 :=
      if 0 < tc then
        d1 ++ [(chars ("collections_breakdown"),
          DetailVal.counts (ov.databases.map (fun p => (p.1, p.2.collections.length))))]
      else d1
    ⟨chars ("metadata_answer"), q, a2, .entries d2⟩
  else if containsSub ql (chars ("database")) then
    ⟨chars ("metadata_answer"), q,
      chars ("There are ") ++ natStr td ++ chars (" database") ++ plural td
        ++ chars (" stored in the RAG system: ")
        ++ joinSep (chars (", ")) (ov.databases.map (fun p => pyStr p.1)),
      .entries [(chars ("databases"), .vals (ov.databases.map (·.1)))]⟩
  else if containsSub ql (chars ("overview")) || containsSub ql (chars ("summary")) then
    ⟨chars ("metadata_answer"), q,
      chars ("RAG System Overview: ") ++ natStr td ++ chars (" database")
        ++ plural td ++ chars (", ") ++ natStr (tt + tc) ++ chars (" table")
        ++ plural (tt + tc) ++ chars ("/collection") ++ plural (tt + tc)
        ++ chars (", ") ++ natStr ov.total_documents
        ++ chars (" total schema documents."),
      .full ov⟩
  else ⟨chars ("metadata_answer"), q, [], .entries []⟩

/-- Model of `_answer_metadata_query`.  The guard
`database_filter and database_filter in overview["databases"]` is Python
truthiness (non-empty string) plus dictionary key membership. -/
def answer_metadata_query (st : Store) (q : Str) (dbFilter : Option Str) :
    MetaResponse :=
  let ov := get_database_overview st
  let ql := lower q
  match dbFilter with
  | some f =>
    if f.isEmpty then allBranch ov ql q
    else
      match vlookup ov.databases (.vstr f) with
      | some info => filterBranch f info ov ql q
      | none => allBranch ov ql q
  | none => allBranch ov ql q

/-! ## Search (`search_schema`) -/

/-- One raw hit as reported by the store's nearest-neighbor query:
document text, metadata, and distance. -/
abbrev Hit := Str × List (Str × Value) × ℚ

/-- The distance→similarity conversion of `search_schema`:
`max(0.0, 1.0 - distance) if distance >= 0 else abs(distance)`. -/
def similarityOf (d : ℚ) : ℚ := if 0 ≤ d then max 0 (1 - d) else |d|

/-- The similarity→relevance bucketing of `search_schema`. -/
def relevanceOf (s : ℚ) : Str :=
  if 7/10 < s then chars ("high")
  else if 2/5 < s then chars ("medium")
  else chars ("low")

/-- One formatted result dictionary.  Semantic hits carry no `details`
key, the metadata pseudo-result does; this is modelled with an `Option`. -/
structure SearchResult where
  content : Str
  metadata : List (Str × Value)
  similarity_score : ℚ
  relevance : Str
  details : Option Details

/-- The result-formatting loop of `search_schema` over the store's raw
hits. -/
def formatSemantic (hits : List Hit) : List SearchResult :=
  hits.map (fun h =>
    ⟨h.1, h.2.1, similarityOf h.2.2, relevanceOf (similarityOf h.2.2), none⟩)

/-- Python `database_filter or "all"`. -/
def orAll : Option Str → Str
  | some f => if f.isEmpty then chars ("all") else f
  | none => chars ("all")

/-- The metadata of the single pseudo-result returned for metadata
queries. -/
def pseudoMeta (dbFilter : Option Str) : List (Str × Value) :=
  [ (chars ("type"), .vstr (chars ("metadata_answer"))),
    (chars ("query_type"), .vstr (chars ("direct_answer"))),
    (chars ("database_name"), .vstr (orAll dbFilter)) ]

/-- Model of `search_schema`.  The embedding model and the store's
nearest-neighbor search are oracles: `emb` embeds text (empty vector =
failure), `knn` returns the raw hits for a query embedding, a result
count, and an optional `database_name` filter. -/
def search_schema (st : Store) (emb : Str → List ℚ)
    (knn : List ℚ → Nat → Option Str → List Hit)
    (query : Str) (n_results : Nat) (dbFilter : Option Str) : List SearchResult :=
  if is_metadata_query query then
    let resp := answer_metadata_query st query dbFilter
    [⟨resp.answer, pseudoMeta dbFilter, 1, chars ("direct_answer"), some resp.details⟩]
  else
    let qe := emb query
    if qe.isEmpty then []
    else formatSemantic (knn qe n_results dbFilter)

/-! ## Concrete inputs used for evaluations and witnesses -/

/-- The connection-config slice for the end-to-end scenario. -/
def schoolCfg : DbConfig := ⟨chars ("school"), chars ("localhost")⟩

/-- The end-to-end scenario schema: one table
`students(student_id PK, name, email)` and zero relationships. -/
def studentsSchema : Schema :=
  ⟨[(chars ("students"),
     ⟨[⟨chars ("student_id"), chars ("int"), false, none⟩,
       ⟨chars ("name"), chars ("varchar"), true, none⟩,
       ⟨chars ("email"), chars ("varchar"), true, none⟩],
      [chars ("student_id")]⟩)], [], []⟩

/-- An embedding oracle that succeeds on every input. -/
def embOne : Str → List ℚ := fun _ => [1]

/-- An embedding oracle that fails on every input. -/
def embNone : Str → List ℚ := fun _ => []

/-- A nearest-neighbor oracle that returns no hits. -/
def knnNone : List ℚ → Nat → Option Str → List Hit := fun _ _ _ => []

/-- The store produced by the end-to-end scenario: the `students` schema
stored into an empty store with an always-succeeding embedding oracle. -/
def studentsStore : Store :=
  (store_schema [] embOne studentsSchema .mysql schoolCfg).1

/-- A schema exhibiting the id collision: table `a` with column `b`
collides with table `a_b`. -/
def collisionSchema : Schema :=
  ⟨[(chars ("a"), ⟨[⟨chars ("b"), chars ("int"), true, none⟩], []⟩),
    (chars ("a_b"), ⟨[], []⟩)], [], []⟩

/-- A small collision-free schema used to witness the amended id-uniqueness
theorem: two tables with underscore-free names and one relationship. -/
def cleanSchema : Schema :=
  ⟨[(chars ("orders"), ⟨[⟨chars ("oid"), chars ("int"), false, none⟩,
                         ⟨chars ("total"), chars ("int"), true, none⟩], [chars ("oid")]⟩),
    (chars ("customers"), ⟨[⟨chars ("cid"), chars ("int"), false, none⟩], [chars ("cid")]⟩)],
   [⟨chars ("orders"), chars ("cid"), chars ("customers"), chars ("cid")⟩], []⟩

/-! ## Derived views of the generated ids (used to reason about
uniqueness) -/

/-- The segment of an id tail before its first underscore. -/
def firstSeg (s : Str) : Str := s.takeWhile (fun c => !(c == uscore))

/-- The id tails contributed by a list of parent entities, each parent
`n` contributing `n` itself followed by `n ++ "_" ++ c` for each child
`c` — the common shape of the table/column and collection/field id
schemes. -/
def blockTails {α : Type} (nameOf : α → Str) (children : α → List Str) :
    List α → List Str
  | [] => []
  | p :: rest =>
    (nameOf p :: (children p).map (fun c => nameOf p ++ [uscore] ++ c))
      ++ blockTails nameOf children rest

/-- The id tails `relationship_{i}` for `n` relationships starting at
index `i`. -/
def relTails : Nat → Nat → List Str
  | _, 0 => []
  | i, n + 1 => (chars ("relationship") ++ [uscore] ++ natStr i) :: relTails (i + 1) n

/-! # Theorems -/

theorem natStrAux_fuel_irrel : ∀ f g n, n < f → n < g → natStrAux f n = natStrAux g n := by
  intro f
  induction f with
  | zero => intro g n h; omega
  | succ f ih =>
    intro g n hf hg
    cases g with
    | zero => omega
    | succ g =>
      simp only [natStrAux]
      by_cases h10 : n < 10
      · simp [h10]
      · simp only [if_neg h10]
        have hdiv : n / 10 < n := Nat.div_lt_self (by omega) (by omega)
        rw [ih g (n / 10) (by omega) (by omega)]

theorem natStr_eq_aux (f n : Nat) (h : n < f) : natStrAux f n = natStr n :=
  natStrAux_fuel_irrel f (n + 1) n h (Nat.lt_succ_self n)

theorem natVal_snoc (s : Str) (c : Char) :
    natVal (s ++ [c]) = 10 * natVal s + (c.toNat - 48) := by
  simp [natVal, List.foldl_append]

theorem toNat_digitCh (d : Nat) (h : d < 10) : (digitCh d).toNat = 48 + d := by
  interval_cases d <;> decide

theorem natVal_natStr (n : Nat) : natVal (natStr n) = n := by
  induction n using Nat.strong_induction_on with
  | _ n ih =>
    by_cases h10 : n < 10
    · simp only [natStr, natStrAux, if_pos h10]
      simp [natVal, toNat_digitCh n h10]
    · simp only [natStr, natStrAux, if_neg h10]
      have hdiv : n / 10 < n := Nat.div_lt_self (by omega) (by omega)
      rw [natStr_eq_aux n (n / 10) (by omega)]
      rw [natVal_snoc, ih (n / 10) hdiv, toNat_digitCh (n % 10) (by omega)]
      omega

theorem natStr_injective : Function.Injective natStr := by
  intro a b h
  have := natVal_natStr a
  rw [h, natVal_natStr b] at this
  exact this.symm

theorem natStrAux_digits : ∀ f n c, c ∈ natStrAux f n → 48 ≤ c.toNat ∧ c.toNat ≤ 57 := by
  intro f
  induction f with
  | zero => intro n c h; simp [natStrAux] at h
  | succ f ih =>
    intro n c h
    simp only [natStrAux] at h
    by_cases h10 : n < 10
    · rw [if_pos h10] at h
      simp at h
      subst h
      rw [toNat_digitCh n h10]
      omega
    · rw [if_neg h10] at h
      rcases List.mem_append.mp h with h1 | h1
      · exact ih _ c h1
      · simp at h1
        subst h1
        rw [toNat_digitCh (n % 10) (by omega)]
        omega

theorem uscore_not_mem_natStr (n : Nat) : uscore ∉ natStr n := by
  intro h
  have := natStrAux_digits (n + 1) n uscore h
  simp [uscore] at this

theorem natStr_ne_nil (n : Nat) : natStr n ≠ [] := by
  by_cases h10 : n < 10
  · simp [natStr, natStrAux, if_pos h10]
  · simp only [natStr, natStrAux, if_neg h10]
    intro h
    exact absurd (List.append_eq_nil.mp h).2 (by simp)

theorem natStr_head_digit (n : Nat) :
    ∃ c t, natStr n = c :: t ∧ 48 ≤ c.toNat ∧ c.toNat ≤ 57 := by
  cases hh : natStr n with
  | nil => exact absurd hh (natStr_ne_nil n)
  | cons c t =>
    refine ⟨c, t, rfl, ?_⟩
    have : c ∈ natStr n := by rw [hh]; exact List.mem_cons_self c t
    exact natStrAux_digits (n + 1) n c this

theorem relevanceOf_iff (s : ℚ) :
    (relevanceOf s = chars ("high") ↔ 7/10 < s)
    ∧ (relevanceOf s = chars ("medium") ↔ (2/5 < s ∧ s ≤ 7/10))
    ∧ (relevanceOf s = chars ("low") ↔ s ≤ 2/5) := by
  unfold relevanceOf
  split_ifs with h1 h2
  · refine ⟨by simp [h1], ?_, ?_⟩
    · constructor
      · intro h; exact absurd h (by decide)
      · rintro ⟨-, h⟩; linarith
    · constructor
      · intro h; exact absurd h (by decide)
      · intro h; linarith
  · refine ⟨?_, by simp [h2]; linarith, ?_⟩
    · constructor
      · intro h; exact absurd h (by decide)
      · intro h; exact absurd h h1
    · constructor
      · intro h; exact absurd h (by decide)
      · intro h; linarith
  · push_neg at h1 h2
    refine ⟨?_, ?_, by simp [h2]⟩
    · constructor
      · intro h; exact absurd h (by decide)
      · intro h; linarith
    · constructor
      · intro h; exact absurd h (by decide)
      · rintro ⟨h, -⟩; linarith

theorem mem_formatSemantic {hits : List Hit} {r : SearchResult}
    (h : r ∈ formatSemantic hits) :
    ∃ p ∈ hits, r = ⟨p.1, p.2.1, similarityOf p.2.2,
      relevanceOf (similarityOf p.2.2), none⟩ := by
  unfold formatSemantic at h
  obtain ⟨p, hp, hr⟩ := List.mem_map.mp h
  exact ⟨p, hp, hr.symm⟩

/-- C2 counterexample: the literal query `"What databases do we have?"`
matches none of the classifier patterns, so it does not classify as a
metadata query, contradicting the claim. -/
theorem c2_counterexample :
    classify (chars ("What databases do we have?")) ≠ QueryKind.metadata := by
  decide

/-- C2 (amended): the classifier is a pure total function of the query
string into the two classes; `"How many tables are there?"` and
`"Give me an overview of the schema"` classify as metadata, while
`"What databases do we have?"` and
`"Find columns that store email addresses"` classify as semantic. -/
theorem c2_classifier_total :
    (∀ q : Str, classify q = QueryKind.metadata ∨ classify q = QueryKind.semantic)
    ∧ classify (chars ("How many tables are there?")) = QueryKind.metadata
    ∧ classify (chars ("Give me an overview of the schema")) = QueryKind.metadata
    ∧ classify (chars ("What databases do we have?")) = QueryKind.semantic
    ∧ classify (chars ("Find columns that store email addresses")) = QueryKind.semantic := by
  refine ⟨?_, by decide, by decide, by decide, by decide⟩
  intro q
  unfold classify
  by_cases h : is_metadata_query q = true
  · rw [if_pos h]; exact Or.inl rfl
  · rw [if_neg h]; exact Or.inr rfl

/-- C3 counterexample: a hit with reported distance `-2` gets similarity
score `2`, which does not lie in `[0, 1]`. -/
theorem c3_counterexample :
    (formatSemantic [(([], [], (-2 : ℚ)) : Hit)]).map (·.similarity_score) = [2]
    ∧ ¬ ((2 : ℚ) ≤ 1) := by
  constructor
  · show [similarityOf (-2 : ℚ)] = [2]
    norm_num [similarityOf, abs_of_neg]
  · norm_num

/-- C3 (amended): every semantic hit's similarity score is obtained from
its reported distance `d` by the source's formula — `max(0, 1-d)` for
`d ≥ 0` (always in `[0, 1]`) and `abs d` for `d < 0`, which lies in
`[0, 1]` exactly when `d ≥ -1` and exceeds `1` for `d < -1`. -/
theorem c3_similarity_clamp (d : ℚ) :
    (0 ≤ d → similarityOf d = max 0 (1 - d)
      ∧ 0 ≤ similarityOf d ∧ similarityOf d ≤ 1)
    ∧ (d < 0 → similarityOf d = |d| ∧ 0 ≤ similarityOf d
      ∧ (similarityOf d ≤ 1 ↔ -1 ≤ d))
    ∧ (∀ hits r, r ∈ formatSemantic hits →
        ∃ p ∈ hits, r.similarity_score = similarityOf p.2.2) := by
  refine ⟨?_, ?_, ?_⟩
  · intro h
    rw [similarityOf, if_pos h]
    refine ⟨rfl, le_max_left 0 _, ?_⟩
    rw [max_le_iff]
    constructor <;> linarith
  · intro h
    rw [similarityOf, if_neg (by linarith)]
    refine ⟨rfl, abs_nonneg d, ?_⟩
    rw [abs_of_neg h]
    constructor <;> intro <;> linarith
  · intro hits r hr
    obtain ⟨p, hp, rfl⟩ := mem_formatSemantic hr
    exact ⟨p, hp, rfl⟩

/-- C3 witness: the amended theorem applied at distance `1/2` (in-range)
and at a concrete one-hit result list. -/
theorem c3_similarity_clamp_witness :
    ((0 : ℚ) ≤ 1/2
      ∧ similarityOf (1/2) = max 0 (1 - 1/2)
      ∧ 0 ≤ similarityOf (1/2 : ℚ) ∧ similarityOf (1/2 : ℚ) ≤ 1)
    ∧ ∃ p ∈ [(([], [], (1/2 : ℚ)) : Hit)],
        (⟨[], [], similarityOf (1/2 : ℚ), relevanceOf (similarityOf (1/2 : ℚ)),
          none⟩ : SearchResult).similarity_score = similarityOf p.2.2 := by
  constructor
  · exact ⟨by norm_num, (c3_similarity_clamp (1/2)).1 (by norm_num)⟩
  · exact (c3_similarity_clamp (1/2)).2.2 [(([], [], (1/2 : ℚ)) : Hit)]
      ⟨[], [], similarityOf (1/2 : ℚ), relevanceOf (similarityOf (1/2 : ℚ)), none⟩
      (List.mem_singleton.mpr rfl)

/-- C4: each semantic hit's relevance tier is determined from its
similarity score by strict thresholds — `high` exactly when the score
exceeds 0.7, `medium` exactly when it exceeds 0.4 but not 0.7, and `low`
exactly when it is at most 0.4; in particular a score of exactly 0.7 is
bucketed `medium` and exactly 0.4 is bucketed `low`. -/
theorem c4_relevance_buckets :
    (∀ hits r, r ∈ formatSemantic hits →
      (r.relevance = chars ("high") ↔ 7/10 < r.similarity_score)
      ∧ (r.relevance = chars ("medium")
          ↔ (2/5 < r.similarity_score ∧ r.similarity_score ≤ 7/10))
      ∧ (r.relevance = chars ("low") ↔ r.similarity_score ≤ 2/5))
    ∧ relevanceOf (7/10) = chars ("medium")
    ∧ relevanceOf (2/5) = chars ("low") := by
  refine ⟨?_, by norm_num [relevanceOf], by norm_num [relevanceOf]⟩
  intro hits r hr
  obtain ⟨p, _, rfl⟩ := mem_formatSemantic hr
  exact relevanceOf_iff (similarityOf p.2.2)

/-- C4 witness: the theorem applied to the single hit with distance `1/4`,
whose similarity `3/4` buckets as `high`. -/
theorem c4_relevance_buckets_witness :
    (⟨[], [], similarityOf (1/4 : ℚ), relevanceOf (similarityOf (1/4 : ℚ)),
      none⟩ : SearchResult).relevance = chars ("high") := by
  have h := (c4_relevance_buckets.1 [(([], [], (1/4 : ℚ)) : Hit)]
    ⟨[], [], similarityOf (1/4 : ℚ), relevanceOf (similarityOf (1/4 : ℚ)), none⟩
    (List.mem_singleton.mpr rfl)).1
  exact h.mpr (by norm_num [similarityOf])

theorem sanitizeValue_idem (v : Value) :
    sanitizeValue (sanitizeValue v) = sanitizeValue v := by
  cases v <;> rfl

/-- C10: the metadata sanitizer is idempotent — every value it produces is
a scalar that its scalar branch passes through unchanged. -/
theorem c10_sanitize_idempotent (m : List (Str × Value)) :
    sanitize_metadata (sanitize_metadata m) = sanitize_metadata m := by
  induction m with
  | nil => rfl
  | cons p t ih =>
    simp only [sanitize_metadata, List.map_cons] at ih ⊢
    rw [sanitizeValue_idem, ih]

theorem filterBranch_statistics (f : Str) (info : DbInfo) (ov : Overview) (q : Str) :
    filterBranch f info ov (chars ("statistics")) q
      = ⟨chars ("metadata_answer"), q, [], .entries []⟩ := by
  unfold filterBranch
  rw [if_neg (by decide), if_neg (by decide)]

theorem allBranch_statistics (ov : Overview) (q : Str) :
    allBranch ov (chars ("statistics")) q
      = ⟨chars ("metadata_answer"), q, [], .entries []⟩ := by
  simp only [allBranch]
  rw [if_neg (by decide), if_neg (by decide), if_neg (by decide)]

theorem answer_statistics (st : Store) (f : Option Str) :
    answer_metadata_query st (chars ("statistics")) f
      = ⟨chars ("metadata_answer"), chars ("statistics"), [], .entries []⟩ := by
  have hl : lower (chars ("statistics")) = chars ("statistics") := by decide
  cases f with
  | none =>
    simp only [answer_metadata_query, hl]
    exact allBranch_statistics _ _
  | some g =>
    simp only [answer_metadata_query, hl]
    by_cases he : g.isEmpty = true
    · rw [if_pos he]; exact allBranch_statistics _ _
    · rw [if_neg he]
      cases vlookup (get_database_overview st).databases (.vstr g) with
      | none => exact allBranch_statistics _ _
      | some info => exact filterBranch_statistics _ _ _ _

/-- C9: every query classified as metadata yields exactly one
pseudo-result carrying the answerer's text, similarity score 1, relevance
`direct_answer`, and metadata type `metadata_answer`; and for the query
`"statistics"` (classified metadata but matching no keyword branch) the
answer text is empty and the details are empty, for every store state and
filter. -/
theorem c9_metadata_pseudo_result (st : Store) (emb : Str → List ℚ)
    (knn : List ℚ → Nat → Option Str → List Hit) (q : Str) (n : Nat)
    (f : Option Str) (h : is_metadata_query q = true) :
    search_schema st emb knn q n f =
      [⟨(answer_metadata_query st q f).answer, pseudoMeta f, 1,
        chars ("direct_answer"), some (answer_metadata_query st q f).details⟩]
    ∧ (answer_metadata_query st (chars ("statistics")) f).answer = []
    ∧ (answer_metadata_query st (chars ("statistics")) f).details
        = Details.entries [] := by
  refine ⟨?_, ?_, ?_⟩
  · unfold search_schema
    rw [if_pos h]
  · rw [answer_statistics]
  · rw [answer_statistics]

/-- C9 witness: the theorem applied to the query `"statistics"` on the
empty store with no filter. -/
theorem c9_metadata_pseudo_result_witness :
    search_schema [] embNone knnNone (chars ("statistics")) 5 none
      = [⟨[], pseudoMeta none, 1, chars ("direct_answer"),
          some (Details.entries [])⟩] := by
  have h := (c9_metadata_pseudo_result [] embNone knnNone
    (chars ("statistics")) 5 none (by decide)).1
  rw [h, answer_statistics]

theorem keptEntries_cons_fail (emb : Str → List ℚ) (d : SchemaDocument)
    (t : List SchemaDocument) (he : emb d.content = []) :
    keptEntries emb (d :: t) = keptEntries emb t := by
  simp [keptEntries, he]

theorem keptEntries_cons_ok (emb : Str → List ℚ) (d : SchemaDocument)
    (t : List SchemaDocument) (x : ℚ) (xs : List ℚ)
    (he : emb d.content = x :: xs) :
    keptEntries emb (d :: t)
      = ⟨d.id, d.content, d.metadata, x :: xs⟩ :: keptEntries emb t := by
  simp [keptEntries, he]

theorem keptEntries_nil_iff (emb : Str → List ℚ) (docs : List SchemaDocument) :
    keptEntries emb docs = [] ↔ ∀ d ∈ docs, emb d.content = [] := by
  induction docs with
  | nil => simp [keptEntries]
  | cons d t ih =>
    cases he : emb d.content with
    | nil =>
      rw [keptEntries_cons_fail emb d t he, ih]
      constructor
      · intro hall e hmem
        rcases List.mem_cons.mp hmem with rfl | hmem2
        · exact he
        · exact hall e hmem2
      · intro hall e hmem
        exact hall e (List.mem_cons_of_mem d hmem)
    | cons x xs =>
      rw [keptEntries_cons_ok emb d t x xs he]
      constructor
      · intro hc; exact absurd hc (by simp)
      · intro hall
        exact absurd (hall d (List.mem_cons_self d t)) (by simp [he])

/-- C7: `store_schema` reports failure exactly when no document embeds —
whenever at least one built document has a successful (non-empty)
embedding, it upserts the successfully embedded subset and returns true;
when every built document fails to embed (or none were built), it leaves
the store unchanged and returns false. -/
theorem c7_store_partial_success (st : Store) (emb : Str → List ℚ)
    (schema : Schema) (ty : DatabaseType) (cfg : DbConfig) :
    ((∃ d ∈ create_table_documents schema ty cfg, emb d.content ≠ []) →
      store_schema st emb schema ty cfg
        = (upsertAll st (keptEntries emb (create_table_documents schema ty cfg)),
            true))
    ∧ ((∀ d ∈ create_table_documents schema ty cfg, emb d.content = []) →
      store_schema st emb schema ty cfg = (st, false)) := by
  constructor
  · rintro ⟨d, hd, hne⟩
    have hdocs : (create_table_documents schema ty cfg).isEmpty = false := by
      cases hcd : create_table_documents schema ty cfg with
      | nil => rw [hcd] at hd; simp at hd
      | cons a b => rfl
    have hkept : keptEntries emb (create_table_documents schema ty cfg) ≠ [] := by
      intro hk
      exact hne ((keptEntries_nil_iff emb _).mp hk d hd)
    simp only [store_schema]
    rw [if_neg (by simp [hdocs]), if_neg (by simp [hkept])]
  · intro hall
    by_cases hdocs : (create_table_documents schema ty cfg).isEmpty = true
    · simp only [store_schema]
      rw [if_pos hdocs]
    · have hkept : keptEntries emb (create_table_documents schema ty cfg) = [] :=
        (keptEntries_nil_iff emb _).mpr hall
      simp only [store_schema]
      rw [if_neg hdocs, if_pos (by simp [hkept])]

/-- C7 witness: the theorem applied to the `students` schema with an
always-succeeding embedding oracle on the empty store. -/
theorem c7_store_partial_success_witness :
    store_schema [] embOne studentsSchema .mysql schoolCfg
      = (upsertAll []
          (keptEntries embOne (create_table_documents studentsSchema .mysql schoolCfg)),
         true) :=
  (c7_store_partial_success [] embOne studentsSchema .mysql schoolCfg).1 (by decide)

/-- C8: the end-to-end scenario — the `students(student_id PK, name,
email)` schema with zero relationships produces exactly 4 documents (1
table document and 3 column documents), and after storing them the
overview reports 4 total documents with the `school` database's table list
equal to `["students"]`. -/
theorem c8_end_to_end :
    (create_table_documents studentsSchema .mysql schoolCfg).length = 4
    ∧ ((create_table_documents studentsSchema .mysql schoolCfg).filter
        (fun d => metaGetD d.metadata (chars ("type")) .vnone
          == Value.vstr (chars ("table")))).length = 1
    ∧ ((create_table_documents studentsSchema .mysql schoolCfg).filter
        (fun d => metaGetD d.metadata (chars ("type")) .vnone
          == Value.vstr (chars ("column")))).length = 3
    ∧ (get_database_overview studentsStore).total_documents = 4
    ∧ (vlookup (get_database_overview studentsStore).databases
        (.vstr (chars ("school")))).map (fun i => i.tables)
      = some [Value.vstr (chars ("students"))] :=
  ⟨rfl, rfl, rfl, rfl, rfl⟩

/-- C1: evaluation exhibiting the column-count bug — with the `students`
schema stored (3 column documents, so the `document_types` histogram's
`column` bucket is 3), the answerer replies "approximately 1 columns"
because line 140 counts histogram keys equal to `"column"` instead of
reading the bucket's value. -/
theorem c1_column_count_evaluation :
    vlookup (get_database_overview studentsStore).document_types
        (.vstr (chars ("column"))) = some 3
    ∧ (answer_metadata_query studentsStore
        (chars ("How many columns are there?")) (some (chars ("school")))).answer
      = chars ("The ") ++ quoted (chars ("school"))
        ++ chars (" database has approximately 1 columns across all tables.") :=
  ⟨rfl, rfl⟩

/-- C5 counterexample: in a single run, table `a_b` and column `b` of
table `a` generate the same id `db_mysql_a_b`, so the generated ids are
not pairwise distinct. -/
theorem c5_counterexample :
    ¬ ((create_table_documents collisionSchema .mysql
        ⟨chars ("db"), chars ("h")⟩).map (·.id)).Nodup := by
  decide

theorem firstSeg_ucFree {s : Str} (h : uscore ∉ s) : firstSeg s = s := by
  induction s with
  | nil => rfl
  | cons c t ih =>
    have hc : c ≠ uscore := fun he => h (he ▸ List.mem_cons_self c t)
    simp only [firstSeg, List.takeWhile_cons] at ih ⊢
    rw [if_pos (by simp [hc]), ih (fun hm => h (List.mem_cons_of_mem c hm))]

theorem firstSeg_append {t : Str} (c : Str) (h : uscore ∉ t) :
    firstSeg (t ++ [uscore] ++ c) = t := by
  induction t with
  | nil => simp [firstSeg, List.takeWhile_cons]
  | cons d t' ih =>
    have hd : d ≠ uscore := fun he => h (he ▸ List.mem_cons_self d t')
    simp only [List.cons_append, firstSeg, List.takeWhile_cons] at ih ⊢
    rw [if_pos (by simp [hd]), ih (fun hm => h (List.mem_cons_of_mem d hm))]

theorem replaceCh_of_not_mem (old new : Char) {s : Str} (h : old ∉ s) :
    replaceCh old new s = s := by
  induction s with
  | nil => rfl
  | cons c t ih =>
    have hc : c ≠ old := fun he => h (he ▸ List.mem_cons_self c t)
    simp only [replaceCh]
    rw [if_neg (by simp [hc]), ih (fun hm => h (List.mem_cons_of_mem c hm))]

theorem mem_blockTails {α : Type} (nameOf : α → Str) (children : α → List Str)
    (l : List α) (h2 : ∀ p ∈ l, uscore ∉ nameOf p) (x : Str)
    (hx : x ∈ blockTails nameOf children l) : firstSeg x ∈ l.map nameOf := by
  induction l with
  | nil => simp [blockTails] at hx
  | cons p rest ih =>
    simp only [blockTails, List.mem_append] at hx
    simp only [List.map_cons, List.mem_cons]
    rcases hx with hx | hx
    · rcases List.mem_cons.mp hx with rfl | hx2
      · exact Or.inl (firstSeg_ucFree (h2 p (List.mem_cons_self p rest)))
      · obtain ⟨c, _, rfl⟩ := List.mem_map.mp hx2
        exact Or.inl (firstSeg_append c (h2 p (List.mem_cons_self p rest)))
    · exact Or.inr (ih (fun q hq => h2 q (List.mem_cons_of_mem p hq)) hx)

theorem blockTails_nodup {α : Type} (nameOf : α → Str) (children : α → List Str)
    (l : List α) (h1 : (l.map nameOf).Nodup) (h2 : ∀ p ∈ l, uscore ∉ nameOf p)
    (h3 : ∀ p ∈ l, (children p).Nodup) :
    (blockTails nameOf children l).Nodup := by
  induction l with
  | nil => simp [blockTails]
  | cons p rest ih =>
    simp only [blockTails]
    rw [List.map_cons, List.nodup_cons] at h1
    apply List.Nodup.append
    · apply List.nodup_cons.mpr
      constructor
      · intro hmem
        obtain ⟨c, _, heq⟩ := List.mem_map.mp hmem
        have hlen := congrArg List.length heq
        simp only [List.length_append, List.length_cons, List.length_nil] at hlen
        omega
      · refine List.Nodup.map ?_ (h3 p (List.mem_cons_self p rest))
        intro a b hab
        exact List.append_cancel_left hab
    · exact ih h1.2 (fun q hq => h2 q (List.mem_cons_of_mem p hq))
        (fun q hq => h3 q (List.mem_cons_of_mem p hq))
    · intro x hx1 hx2
      have hseg1 : firstSeg x = nameOf p := by
        rcases List.mem_cons.mp hx1 with rfl | hx1'
        · exact firstSeg_ucFree (h2 p (List.mem_cons_self p rest))
        · obtain ⟨c, _, rfl⟩ := List.mem_map.mp hx1'
          exact firstSeg_append c (h2 p (List.mem_cons_self p rest))
      have hseg2 := mem_blockTails nameOf children rest
        (fun q hq => h2 q (List.mem_cons_of_mem p hq)) x hx2
      rw [hseg1] at hseg2
      exact h1.1 hseg2

theorem mem_relTails : ∀ (n i : Nat) (x : Str), x ∈ relTails i n →
    ∃ j, i ≤ j ∧ x = chars ("relationship") ++ [uscore] ++ natStr j := by
  intro n
  induction n with
  | zero => intro i x hx; simp [relTails] at hx
  | succ n ih =>
    intro i x hx
    rcases List.mem_cons.mp hx with rfl | hx2
    · exact ⟨i, le_refl i, rfl⟩
    · obtain ⟨j, hj, rfl⟩ := ih (i + 1) x hx2
      exact ⟨j, by omega, rfl⟩

theorem relTails_nodup : ∀ (n i : Nat), (relTails i n).Nodup := by
  intro n
  induction n with
  | zero => intro i; simp [relTails]
  | succ n ih =>
    intro i
    apply List.nodup_cons.mpr
    refine ⟨?_, ih (i + 1)⟩
    intro hmem
    obtain ⟨j, hj, heq⟩ := mem_relTails n (i + 1) _ hmem
    exact absurd (natStr_injective (List.append_cancel_left heq)) (by omega)

theorem sqlTableDocs_ids (ty : DatabaseType) (cfg : DbConfig)
    (l : List (Str × TableInfo)) :
    (sqlTableDocs ty cfg l).map (·.id)
      = (blockTails Prod.fst (fun p => p.2.columns.map Column.name) l).map
          (fun t => idPrefix ty cfg ++ t) := by
  induction l with
  | nil => rfl
  | cons p rest ih =>
    simp only [sqlTableDocs, sqlTableBlock, blockTails, List.map_append,
      List.map_cons, List.map_map, ih]
    simp [tableDoc, columnDoc, idPrefix, Function.comp, List.append_assoc]

theorem relDocs_ids (ty : DatabaseType) (cfg : DbConfig) :
    ∀ (rels : List Rel) (i : Nat),
    (relDocs ty cfg i rels).map (·.id)
      = (relTails i rels.length).map (fun t => idPrefix ty cfg ++ t) := by
  intro rels
  induction rels with
  | nil => intro i; rfl
  | cons r rest ih =>
    intro i
    simp only [relDocs, List.length_cons, relTails, List.map_cons, ih]
    simp [relationshipDoc, idPrefix, List.append_assoc]

theorem mongoCollectionDocs_ids (ty : DatabaseType) (cfg : DbConfig)
    (l : List (Str × CollectionInfo)) :
    (mongoCollectionDocs ty cfg l).map (·.id)
      = (blockTails Prod.fst
          (fun p => p.2.fields.map (fun f => replaceCh dotCh uscore f.1)) l).map
          (fun t => idPrefix ty cfg ++ t) := by
  induction l with
  | nil => rfl
  | cons p rest ih =>
    simp only [mongoCollectionDocs, mongoCollectionBlock, blockTails,
      List.map_append, List.map_cons, List.map_map, ih]
    simp [collectionDoc, fieldDoc, idPrefix, Function.comp, List.append_assoc]

theorem sqlBranch_nodup (ty : DatabaseType) (cfg : DbConfig)
    (tables : List (Str × TableInfo)) (rels : List Rel)
    (h1 : (tables.map Prod.fst).Nodup)
    (h2 : ∀ p ∈ tables, uscore ∉ p.1)
    (h3 : ∀ p ∈ tables, (p.2.columns.map Column.name).Nodup)
    (h5 : ∀ p ∈ tables, p.1 ≠ chars ("relationship")) :
    ((sqlTableDocs ty cfg tables ++ relDocs ty cfg 0 rels).map (·.id)).Nodup := by
  rw [List.map_append, sqlTableDocs_ids, relDocs_ids, ← List.map_append]
  apply List.Nodup.map (fun a b h => List.append_cancel_left h)
  apply List.Nodup.append
  · exact blockTails_nodup _ _ _ h1 h2 h3
  · exact relTails_nodup _ _
  · intro x hx1 hx2
    have hseg := mem_blockTails _ _ _ h2 x hx1
    obtain ⟨j, _, rfl⟩ := mem_relTails _ _ _ hx2
    rw [firstSeg_append _ (by decide)] at hseg
    obtain ⟨p, hp, hpe⟩ := List.mem_map.mp hseg
    exact h5 p hp hpe

/-- C5 (amended): the ids generated for the entities of one run are
pairwise distinct provided the entity names do not recreate the `_`
separator pattern of the id scheme — table and collection names contain no
underscore and are duplicate-free, column and field names are
duplicate-free per table/collection, field names contain no dot, and no
table is named `relationship`.  (Without these side conditions ids
collide, e.g. table `a_b` against column `b` of table `a`.) -/
theorem c5_id_uniqueness (schema : Schema) (ty : DatabaseType) (cfg : DbConfig)
    (h1 : (schema.tables.map Prod.fst).Nodup)
    (h2 : ∀ p ∈ schema.tables, uscore ∉ p.1)
    (h3 : ∀ p ∈ schema.tables, (p.2.columns.map Column.name).Nodup)
    (h5 : ∀ p ∈ schema.tables, p.1 ≠ chars ("relationship"))
    (h6 : (schema.collections.map Prod.fst).Nodup)
    (h7 : ∀ p ∈ schema.collections, uscore ∉ p.1)
    (h8 : ∀ p ∈ schema.collections, (p.2.fields.map Prod.fst).Nodup)
    (h9 : ∀ p ∈ schema.collections, ∀ f ∈ p.2.fields, dotCh ∉ f.1) :
    ((create_table_documents schema ty cfg).map (·.id)).Nodup := by
  cases ty with
  | mysql => exact sqlBranch_nodup _ cfg _ _ h1 h2 h3 h5
  | postgresql => exact sqlBranch_nodup _ cfg _ _ h1 h2 h3 h5
  | mongodb =>
    show ((mongoCollectionDocs .mongodb cfg schema.collections).map (·.id)).Nodup
    rw [mongoCollectionDocs_ids]
    apply List.Nodup.map (fun a b h => List.append_cancel_left h)
    apply blockTails_nodup _ _ _ h6 h7
    intro p hp
    have hrepl : p.2.fields.map (fun f => replaceCh dotCh uscore f.1)
        = p.2.fields.map Prod.fst := by
      apply List.map_congr_left
      intro f hf
      exact replaceCh_of_not_mem dotCh uscore (h9 p hp f hf)
    rw [hrepl]
    exact h8 p hp

/-- C5 witness: the amended theorem applied to a small collision-free
schema (underscore-free table and column names, one relationship). -/
theorem c5_id_uniqueness_witness :
    ((cleanSchema.tables.map Prod.fst).Nodup
      ∧ (∀ p ∈ cleanSchema.tables, uscore ∉ p.1))
    ∧ ((create_table_documents cleanSchema .mysql schoolCfg).map (·.id)).Nodup :=
  ⟨⟨by decide, by decide⟩,
    c5_id_uniqueness cleanSchema .mysql schoolCfg (by decide) (by decide)
      (by decide) (by decide) (by decide) (by decide) (by decide) (by decide)⟩

theorem isPre_self_append : ∀ (p r : Str), isPre p (p ++ r) = true := by
  intro p
  induction p with
  | nil => intro r; rfl
  | cons c t ih => intro r; simp [isPre, ih r]

theorem isPre_cons_false {a c : Char} {p t : Str} (h : a ≠ c) :
    isPre (a :: p) (c :: t) = false := by
  simp [isPre]
  intro he
  exact absurd he h

theorem parseString_escape : ∀ (k r : Str),
    parseString (jsonEscape k ++ [dquote] ++ r) = some (k, r) := by
  intro k
  induction k with
  | nil =>
    intro r
    show parseString (dquote :: r) = some ([], r)
    unfold parseString
    simp
  | cons c k2 ih =>
    intro r
    by_cases hc : (c == dquote || c == bslash) = true
    · have he : jsonEscape (c :: k2) = bslash :: c :: jsonEscape k2 := by
        show jsonEscapeCh c ++ jsonEscape k2 = _
        rw [jsonEscapeCh, if_pos hc]
        rfl
      rw [he]
      have hs : ((bslash :: c :: jsonEscape k2) ++ [dquote]) ++ r
          = bslash :: c :: ((jsonEscape k2 ++ [dquote]) ++ r) := by simp
      rw [hs]
      unfold parseString
      simp only [show (bslash == dquote) = false from rfl,
        show (bslash == bslash) = true from rfl, Bool.false_eq_true, if_false,
        if_true, ih r]
    · rw [Bool.or_eq_true, not_or] at hc
      obtain ⟨hcd, hcb⟩ := hc
      rw [Bool.not_eq_true] at hcd hcb
      have he : jsonEscape (c :: k2) = c :: jsonEscape k2 := by
        show jsonEscapeCh c ++ jsonEscape k2 = _
        rw [jsonEscapeCh, if_neg (by simp [hcd, hcb])]
        rfl
      rw [he]
      have hs : ((c :: jsonEscape k2) ++ [dquote]) ++ r
          = c :: ((jsonEscape k2 ++ [dquote]) ++ r) := by simp
      rw [hs]
      unfold parseString
      simp only [hcd, hcb, Bool.false_eq_true, if_false, ih r]

theorem takeDigits_append : ∀ (s r : Str), (∀ c ∈ s, isDigitCh c = true) →
    noDigitHead r → takeDigits (s ++ r) = (s, r) := by
  intro s
  induction s with
  | nil =>
    intro r _ hr
    cases r with
    | nil => rfl
    | cons c t =>
      simp only [noDigitHead] at hr
      simp [takeDigits, hr]
  | cons c t ih =>
    intro r hall hr
    have hc := hall c (List.mem_cons_self c t)
    have iht := ih r (fun d hd => hall d (List.mem_cons_of_mem c hd)) hr
    simp only [List.cons_append, takeDigits, hc, if_true]
    rw [show t.append r = t ++ r from rfl, iht]

theorem natStr_all_digits (n : Nat) : ∀ c ∈ natStr n, isDigitCh c = true := by
  intro c hc
  have h := natStrAux_digits (n + 1) n c hc
  simp only [isDigitCh, Bool.and_eq_true, decide_eq_true_eq]
  omega

theorem parseIntTok_intStr : ∀ (n : Int) (r : Str), noDigitHead r →
    parseIntTok (intStr n ++ r) = some (n, r) := by
  intro n r hr
  cases n with
  | ofNat m =>
    obtain ⟨c, t, hct, hlo, hhi⟩ := natStr_head_digit m
    have htd : takeDigits (natStr m ++ r) = (natStr m, r) :=
      takeDigits_append (natStr m) r (natStr_all_digits m) hr
    show parseIntTok (natStr m ++ r) = some (Int.ofNat m, r)
    rw [hct] at htd ⊢
    have hcm : (c == minusCh) = false := by
      simp only [beq_eq_false_iff_ne, ne_eq]
      intro he
      rw [he] at hlo
      simp [minusCh] at hlo
    simp only [List.cons_append, parseIntTok, hcm, Bool.false_eq_true, if_false]
    rw [show c :: (t ++ r) = (c :: t) ++ r from rfl, htd]
    show some ((natVal (c :: t) : Int), r) = some (Int.ofNat m, r)
    rw [← hct, natVal_natStr]
    rfl
  | negSucc m =>
    obtain ⟨c, t, hct, hlo, hhi⟩ := natStr_head_digit (m + 1)
    have htd : takeDigits (natStr (m + 1) ++ r) = (natStr (m + 1), r) :=
      takeDigits_append (natStr (m + 1)) r (natStr_all_digits (m + 1)) hr
    show parseIntTok ((minusCh :: natStr (m + 1)) ++ r) = some (Int.negSucc m, r)
    simp only [List.cons_append, parseIntTok, show (minusCh == minusCh) = true from rfl,
      if_true]
    rw [htd, hct]
    show some (-(natVal (c :: t) : Int), r) = some (Int.negSucc m, r)
    rw [← hct, natVal_natStr, Int.negSucc_eq]
    norm_num

mutual

theorem costV_le : (v : Value) → costV v ≤ (jsonDumps v).length
  | .vnone => by decide
  | .vbool b => by cases b <;> decide
  | .vint n => by
    cases n with
    | ofNat m =>
      show 1 ≤ (natStr m).length
      cases h : natStr m with
      | nil => exact absurd h (natStr_ne_nil m)
      | cons a b => simp
    | negSucc m =>
      show 1 ≤ (minusCh :: natStr (m + 1)).length
      simp
  | .vstr s => by
    show 1 ≤ (dquote :: jsonEscape s ++ [dquote]).length
    simp
  | .vlist [] => by decide
  | .vlist (v :: vs) => by
    have h1 := costV_le v
    have h2 := costI_le vs
    show 1 + costV v + costI vs
      ≤ (lbrack :: jsonDumps v ++ jsonDumpsTail vs ++ [rbrack]).length
    simp only [List.length_cons, List.length_append]
    omega
  | .vdict [] => by decide
  | .vdict (p :: ps) => by
    have h1 := costE_le p
    have h2 := costP_le ps
    show 1 + costE p + costP ps
      ≤ (lcurly :: jsonDumpsEntry p ++ jsonDumpsPairsTail ps ++ [rcurly]).length
    simp only [List.length_cons, List.length_append]
    omega

theorem costI_le : (vs : List Value) → costI vs ≤ (jsonDumpsTail vs).length + 1
  | [] => by decide
  | v :: vs => by
    have h1 := costV_le v
    have h2 := costI_le vs
    show 1 + costV v + costI vs
      ≤ (chars (", ") ++ jsonDumps v ++ jsonDumpsTail vs).length + 1
    have h3 : (chars (", ")).length = 2 := rfl
    simp only [List.length_append]
    omega

theorem costE_le : (p : Str × Value) → costE p ≤ (jsonDumpsEntry p).length
  | (k, v) => by
    have h1 := costV_le v
    show 1 + costV v
      ≤ (dquote :: jsonEscape k ++ [dquote] ++ chars (": ") ++ jsonDumps v).length
    simp only [List.length_cons, List.length_append]
    omega

theorem costP_le : (ps : List (Str × Value)) →
    costP ps ≤ (jsonDumpsPairsTail ps).length + 1
  | [] => by decide
  | p :: ps => by
    have h1 := costE_le p
    have h2 := costP_le ps
    show 1 + costE p + costP ps
      ≤ (chars (", ") ++ jsonDumpsEntry p ++ jsonDumpsPairsTail ps).length + 1
    have h3 : (chars (", ")).length = 2 := rfl
    simp only [List.length_append]
    omega

end

theorem drop_len_append (p r : Str) : (p ++ r).drop p.length = r := by
  induction p with
  | nil => rfl
  | cons c t ih => simp [ih]

theorem jsonDumps_head (v : Value) :
    ∃ c t, jsonDumps v = c :: t ∧ (c == rbrack) = false ∧ (c == rcurly) = false := by
  cases v with
  | vnone => exact ⟨'n', _, rfl, rfl, rfl⟩
  | vbool b => cases b with
    | true => exact ⟨'t', _, rfl, rfl, rfl⟩
    | false => exact ⟨'f', _, rfl, rfl, rfl⟩
  | vint n =>
    cases n with
    | ofNat m =>
      obtain ⟨c, t, hct, hlo, hhi⟩ := natStr_head_digit m
      refine ⟨c, t, hct, ?_, ?_⟩
      · simp only [beq_eq_false_iff_ne, ne_eq]
        intro he
        rw [he] at hhi
        simp [rbrack] at hhi
      · simp only [beq_eq_false_iff_ne, ne_eq]
        intro he
        rw [he] at hhi
        simp [rcurly] at hhi
    | negSucc m => exact ⟨minusCh, _, rfl, rfl, rfl⟩
  | vstr s => exact ⟨dquote, _, rfl, rfl, rfl⟩
  | vlist l => cases l with
    | nil => exact ⟨lbrack, _, rfl, rfl, rfl⟩
    | cons v vs => exact ⟨lbrack, _, rfl, rfl, rfl⟩
  | vdict l => cases l with
    | nil => exact ⟨lcurly, _, rfl, rfl, rfl⟩
    | cons p ps => exact ⟨lcurly, _, rfl, rfl, rfl⟩

theorem noDigitHead_itemsRest (vs : List Value) (r : Str) :
    noDigitHead (jsonDumpsTail vs ++ rbrack :: r) := by
  cases vs with
  | nil => show isDigitCh rbrack = false; rfl
  | cons v vs => show isDigitCh ',' = false; rfl

theorem noDigitHead_pairsRest (ps : List (Str × Value)) (r : Str) :
    noDigitHead (jsonDumpsPairsTail ps ++ rcurly :: r) := by
  cases ps with
  | nil => show isDigitCh rcurly = false; rfl
  | cons p ps => show isDigitCh ',' = false; rfl

theorem parse_dumps : ∀ fuel : Nat,
    (∀ (v : Value) (r : Str), costV v < fuel → noDigitHead r →
      parseValue fuel (jsonDumps v ++ r) = some (v, r))
    ∧ (∀ (vs : List Value) (r : Str), costI vs < fuel → noDigitHead r →
      parseItems fuel (jsonDumpsTail vs ++ rbrack :: r) = some (vs, r))
    ∧ (∀ (p : Str × Value) (r : Str), costE p < fuel → noDigitHead r →
      parseEntry fuel (jsonDumpsEntry p ++ r) = some (p, r))
    ∧ (∀ (ps : List (Str × Value)) (r : Str), costP ps < fuel → noDigitHead r →
      parsePairs fuel (jsonDumpsPairsTail ps ++ rcurly :: r) = some (ps, r)) := by
  intro fuel
  induction fuel with
  | zero =>
    refine ⟨?_, ?_, ?_, ?_⟩ <;> intro x r hc hr <;> exact absurd hc (Nat.not_lt_zero _)
  | succ f ih =>
    obtain ⟨ihV, ihI, ihE, ihP⟩ := ih
    refine ⟨?_, ?_, ?_, ?_⟩
    · intro v r hc hr
      cases v with
      | vnone =>
        show parseValue (f + 1) (chars ("null") ++ r) = some (.vnone, r)
        unfold parseValue
        rw [isPre_self_append, if_pos rfl,
          show (4 : Nat) = (chars ("null")).length from rfl, drop_len_append]
      | vbool b =>
        cases b with
        | true =>
          show parseValue (f + 1) (chars ("true") ++ r) = some (.vbool true, r)
          have h1 : isPre (chars ("null")) (chars ("true") ++ r) = false := by
            show isPre ('n' :: chars ("ull")) ('t' :: (chars ("rue") ++ r)) = false
            exact isPre_cons_false (by decide)
          unfold parseValue
          rw [h1, if_neg Bool.false_ne_true, isPre_self_append, if_pos rfl,
            show (4 : Nat) = (chars ("true")).length from rfl, drop_len_append]
        | false =>
          show parseValue (f + 1) (chars ("false") ++ r) = some (.vbool false, r)
          have h1 : isPre (chars ("null")) (chars ("false") ++ r) = false := by
            show isPre ('n' :: chars ("ull")) ('f' :: (chars ("alse") ++ r)) = false
            exact isPre_cons_false (by decide)
          have h2 : isPre (chars ("true")) (chars ("false") ++ r) = false := by
            show isPre ('t' :: chars ("rue")) ('f' :: (chars ("alse") ++ r)) = false
            exact isPre_cons_false (by decide)
          unfold parseValue
          rw [h1, if_neg Bool.false_ne_true, h2, if_neg Bool.false_ne_true,
            isPre_self_append, if_pos rfl,
            show (5 : Nat) = (chars ("false")).length from rfl, drop_len_append]
      | vint n =>
        have hpi := parseIntTok_intStr n r hr
        have hhead : ∃ c t, intStr n = c :: t ∧ 45 ≤ c.toNat ∧ c.toNat ≤ 57 := by
          cases n with
          | ofNat m =>
            obtain ⟨c, t, hct, hlo, hhi⟩ := natStr_head_digit m
            exact ⟨c, t, hct, by omega, hhi⟩
          | negSucc m => exact ⟨minusCh, _, rfl, by decide, by decide⟩
        obtain ⟨c, t, hct, hlo, hhi⟩ := hhead
        show parseValue (f + 1) (intStr n ++ r) = some (.vint n, r)
        rw [hct] at hpi ⊢
        rw [List.cons_append] at hpi ⊢
        have h1 : isPre (chars ("null")) (c :: (t ++ r)) = false := by
          show isPre ('n' :: chars ("ull")) (c :: (t ++ r)) = false
          apply isPre_cons_false
          intro he
          have hn : ('n').toNat = 110 := rfl
          rw [← he] at hhi
          omega
        have h2 : isPre (chars ("true")) (c :: (t ++ r)) = false := by
          show isPre ('t' :: chars ("rue")) (c :: (t ++ r)) = false
          apply isPre_cons_false
          intro he
          have hn : ('t').toNat = 116 := rfl
          rw [← he] at hhi
          omega
        have h3 : isPre (chars ("false")) (c :: (t ++ r)) = false := by
          show isPre ('f' :: chars ("alse")) (c :: (t ++ r)) = false
          apply isPre_cons_false
          intro he
          have hn : ('f').toNat = 102 := rfl
          rw [← he] at hhi
          omega
        have h4 : (c == dquote) = false := by
          simp only [beq_eq_false_iff_ne, ne_eq]
          intro he
          have hn : dquote.toNat = 34 := rfl
          rw [he] at hlo
          omega
        have h5 : (c == lbrack) = false := by
          simp only [beq_eq_false_iff_ne, ne_eq]
          intro he
          have hn : lbrack.toNat = 91 := rfl
          rw [he] at hhi
          omega
        have h6 : (c == lcurly) = false := by
          simp only [beq_eq_false_iff_ne, ne_eq]
          intro he
          have hn : lcurly.toNat = 123 := rfl
          rw [he] at hhi
          omega
        unfold parseValue
        rw [h1, if_neg Bool.false_ne_true, h2, if_neg Bool.false_ne_true,
          h3, if_neg Bool.false_ne_true]
        simp only [h4, h5, h6, Bool.false_eq_true, if_false]
        rw [hpi]
        rfl
      | vstr s =>
        show parseValue (f + 1) ((dquote :: jsonEscape s ++ [dquote]) ++ r)
          = some (.vstr s, r)
        have hs : (dquote :: jsonEscape s ++ [dquote]) ++ r
            = dquote :: ((jsonEscape s ++ [dquote]) ++ r) := by simp
        rw [hs]
        have h1 : isPre (chars ("null"))
            (dquote :: ((jsonEscape s ++ [dquote]) ++ r)) = false := by
          show isPre ('n' :: chars ("ull")) _ = false
          exact isPre_cons_false (by decide)
        have h2 : isPre (chars ("true"))
            (dquote :: ((jsonEscape s ++ [dquote]) ++ r)) = false := by
          show isPre ('t' :: chars ("rue")) _ = false
          exact isPre_cons_false (by decide)
        have h3 : isPre (chars ("false"))
            (dquote :: ((jsonEscape s ++ [dquote]) ++ r)) = false := by
          show isPre ('f' :: chars ("alse")) _ = false
          exact isPre_cons_false (by decide)
        unfold parseValue
        rw [h1, if_neg Bool.false_ne_true, h2, if_neg Bool.false_ne_true,
          h3, if_neg Bool.false_ne_true]
        simp only [show (dquote == dquote) = true from rfl, if_true]
        rw [parseString_escape s r]
        rfl
      | vlist l =>
        cases l with
        | nil =>
          show parseValue (f + 1) ([lbrack, rbrack] ++ r) = some (.vlist [], r)
          have hs : [lbrack, rbrack] ++ r = lbrack :: rbrack :: r := rfl
          rw [hs]
          have h1 : isPre (chars ("null")) (lbrack :: rbrack :: r) = false := by
            show isPre ('n' :: chars ("ull")) _ = false
            exact isPre_cons_false (by decide)
          have h2 : isPre (chars ("true")) (lbrack :: rbrack :: r) = false := by
            show isPre ('t' :: chars ("rue")) _ = false
            exact isPre_cons_false (by decide)
          have h3 : isPre (chars ("false")) (lbrack :: rbrack :: r) = false := by
            show isPre ('f' :: chars ("alse")) _ = false
            exact isPre_cons_false (by decide)
          unfold parseValue
          rw [h1, if_neg Bool.false_ne_true, h2, if_neg Bool.false_ne_true,
            h3, if_neg Bool.false_ne_true]
          simp only [show (lbrack == dquote) = false from rfl,
            show (lbrack == lbrack) = true from rfl,
            show (rbrack == rbrack) = true from rfl,
            Bool.false_eq_true, if_false, if_true]
        | cons v vs =>
          have hcost : costV v < f ∧ costI vs < f := by
            simp only [costV] at hc
            omega
          have hX := noDigitHead_itemsRest vs r
          have h1v := ihV v (jsonDumpsTail vs ++ rbrack :: r) hcost.1 hX
          have h2v := ihI vs r hcost.2 hr
          obtain ⟨c0, t0, hv0, hc0r, hc0c⟩ := jsonDumps_head v
          show parseValue (f + 1)
              ((lbrack :: jsonDumps v ++ jsonDumpsTail vs ++ [rbrack]) ++ r)
            = some (.vlist (v :: vs), r)
          have hs : (lbrack :: jsonDumps v ++ jsonDumpsTail vs ++ [rbrack]) ++ r
              = lbrack :: (jsonDumps v ++ (jsonDumpsTail vs ++ rbrack :: r)) := by
            simp
          rw [hs]
          have happ : jsonDumps v ++ (jsonDumpsTail vs ++ rbrack :: r)
              = c0 :: (t0 ++ (jsonDumpsTail vs ++ rbrack :: r)) := by
            rw [hv0]
            rfl
          have h1 : isPre (chars ("null"))
              (lbrack :: (jsonDumps v ++ (jsonDumpsTail vs ++ rbrack :: r))) = false := by
            show isPre ('n' :: chars ("ull")) _ = false
            exact isPre_cons_false (by decide)
          have h2 : isPre (chars ("true"))
              (lbrack :: (jsonDumps v ++ (jsonDumpsTail vs ++ rbrack :: r))) = false := by
            show isPre ('t' :: chars ("rue")) _ = false
            exact isPre_cons_false (by decide)
          have h3 : isPre (chars ("false"))
              (lbrack :: (jsonDumps v ++ (jsonDumpsTail vs ++ rbrack :: r))) = false := by
            show isPre ('f' :: chars ("alse")) _ = false
            exact isPre_cons_false (by decide)
          unfold parseValue
          rw [h1, if_neg Bool.false_ne_true, h2, if_neg Bool.false_ne_true,
            h3, if_neg Bool.false_ne_true]
          rw [happ]
          simp only [show (lbrack == dquote) = false from rfl,
            show (lbrack == lbrack) = true from rfl,
            Bool.false_eq_true, if_false, if_true, hc0r]
          rw [← happ, h1v]
          simp [h2v]
      | vdict l =>
        cases l with
        | nil =>
          show parseValue (f + 1) ([lcurly, rcurly] ++ r) = some (.vdict [], r)
          have hs : [lcurly, rcurly] ++ r = lcurly :: rcurly :: r := rfl
          rw [hs]
          have h1 : isPre (chars ("null")) (lcurly :: rcurly :: r) = false := by
            show isPre ('n' :: chars ("ull")) _ = false
            exact isPre_cons_false (by decide)
          have h2 : isPre (chars ("true")) (lcurly :: rcurly :: r) = false := by
            show isPre ('t' :: chars ("rue")) _ = false
            exact isPre_cons_false (by decide)
          have h3 : isPre (chars ("false")) (lcurly :: rcurly :: r) = false := by
            show isPre ('f' :: chars ("alse")) _ = false
            exact isPre_cons_false (by decide)
          unfold parseValue
          rw [h1, if_neg Bool.false_ne_true, h2, if_neg Bool.false_ne_true,
            h3, if_neg Bool.false_ne_true]
          simp only [show (lcurly == dquote) = false from rfl,
            show (lcurly == lbrack) = false from rfl,
            show (lcurly == lcurly) = true from rfl,
            show (rcurly == rcurly) = true from rfl,
            Bool.false_eq_true, if_false, if_true]
        | cons p ps =>
          have hcost : costE p < f ∧ costP ps < f := by
            simp only [costV] at hc
            omega
          have hX := noDigitHead_pairsRest ps r
          have h1p := ihE p (jsonDumpsPairsTail ps ++ rcurly :: r) hcost.1 hX
          have h2p := ihP ps r hcost.2 hr
          show parseValue (f + 1)
              ((lcurly :: jsonDumpsEntry p ++ jsonDumpsPairsTail ps ++ [rcurly]) ++ r)
            = some (.vdict (p :: ps), r)
          have hs : (lcurly :: jsonDumpsEntry p ++ jsonDumpsPairsTail ps ++ [rcurly]) ++ r
              = lcurly :: (jsonDumpsEntry p ++ (jsonDumpsPairsTail ps ++ rcurly :: r)) := by
            simp
          rw [hs]
          have happ : jsonDumpsEntry p ++ (jsonDumpsPairsTail ps ++ rcurly :: r)
              = dquote :: ((jsonEscape p.1 ++ [dquote] ++ chars (": ") ++ jsonDumps p.2)
                  ++ (jsonDumpsPairsTail ps ++ rcurly :: r)) := by
            obtain ⟨k, vv⟩ := p
            rfl
          have h1 : isPre (chars ("null"))
              (lcurly :: (jsonDumpsEntry p ++ (jsonDumpsPairsTail ps ++ rcurly :: r)))
              = false := by
            show isPre ('n' :: chars ("ull")) _ = false
            exact isPre_cons_false (by decide)
          have h2 : isPre (chars ("true"))
              (lcurly :: (jsonDumpsEntry p ++ (jsonDumpsPairsTail ps ++ rcurly :: r)))
              = false := by
            show isPre ('t' :: chars ("rue")) _ = false
            exact isPre_cons_false (by decide)
          have h3 : isPre (chars ("false"))
              (lcurly :: (jsonDumpsEntry p ++ (jsonDumpsPairsTail ps ++ rcurly :: r)))
              = false := by
            show isPre ('f' :: chars ("alse")) _ = false
            exact isPre_cons_false (by decide)
          unfold parseValue
          rw [h1, if_neg Bool.false_ne_true, h2, if_neg Bool.false_ne_true,
            h3, if_neg Bool.false_ne_true]
          rw [happ]
          simp only [show (lcurly == dquote) = false from rfl,
            show (lcurly == lbrack) = false from rfl,
            show (lcurly == lcurly) = true from rfl,
            show (dquote == rcurly) = false from rfl,
            Bool.false_eq_true, if_false, if_true]
          rw [← happ, h1p]
          simp [h2p]
    · intro vs r hc hr
      cases vs with
      | nil =>
        show parseItems (f + 1) (rbrack :: r) = some ([], r)
        unfold parseItems
        simp only [show (rbrack == rbrack) = true from rfl, if_true]
      | cons v vs =>
        have hcost : costV v < f ∧ costI vs < f := by
          simp only [costI] at hc
          omega
        have hX := noDigitHead_itemsRest vs r
        have h1v := ihV v (jsonDumpsTail vs ++ rbrack :: r) hcost.1 hX
        have h2v := ihI vs r hcost.2 hr
        show parseItems (f + 1)
            ((chars (", ") ++ jsonDumps v ++ jsonDumpsTail vs) ++ rbrack :: r)
          = some (v :: vs, r)
        have hs : (chars (", ") ++ jsonDumps v ++ jsonDumpsTail vs) ++ rbrack :: r
            = ',' :: ' ' :: (jsonDumps v ++ (jsonDumpsTail vs ++ rbrack :: r)) := by
          rw [show chars (", ") = ',' :: [' '] from rfl]
          simp
        rw [hs]
        unfold parseItems
        have hpre : isPre (chars (", "))
            (',' :: ' ' :: (jsonDumps v ++ (jsonDumpsTail vs ++ rbrack :: r))) = true := by
          show isPre (chars (", "))
            (chars (", ") ++ (jsonDumps v ++ (jsonDumpsTail vs ++ rbrack :: r))) = true
          exact isPre_self_append _ _
        simp only [show ((',' : Char) == rbrack) = false from rfl,
          Bool.false_eq_true, if_false, hpre, if_true]
        rw [show (',' :: ' ' :: (jsonDumps v ++ (jsonDumpsTail vs ++ rbrack :: r))).drop 2
          = jsonDumps v ++ (jsonDumpsTail vs ++ rbrack :: r) from rfl]
        rw [h1v]
        simp [h2v]
    · intro p r hc hr
      obtain ⟨k, vv⟩ := p
      have hcost : costV vv < f := by
        simp only [costE] at hc
        omega
      have h1v := ihV vv r hcost hr
      show parseEntry (f + 1)
          ((dquote :: jsonEscape k ++ [dquote] ++ chars (": ") ++ jsonDumps vv) ++ r)
        = some ((k, vv), r)
      have hs : (dquote :: jsonEscape k ++ [dquote] ++ chars (": ") ++ jsonDumps vv) ++ r
          = dquote :: ((jsonEscape k ++ [dquote]) ++ (chars (": ") ++ (jsonDumps vv ++ r))) := by
        simp
      rw [hs]
      unfold parseEntry
      simp only [show (dquote == dquote) = true from rfl, if_true]
      rw [parseString_escape k (chars (": ") ++ (jsonDumps vv ++ r))]
      have hpre : isPre (chars (": "))
          (chars (": ") ++ (jsonDumps vv ++ r)) = true := isPre_self_append _ _
      have hdrop : (chars (": ") ++ (jsonDumps vv ++ r)).drop 2 = jsonDumps vv ++ r := by
        rw [show (2 : Nat) = (chars (": ")).length from rfl]
        exact drop_len_append _ _
      simp [hpre, hdrop, h1v]
    · intro ps r hc hr
      cases ps with
      | nil =>
        show parsePairs (f + 1) (rcurly :: r) = some ([], r)
        unfold parsePairs
        simp only [show (rcurly == rcurly) = true from rfl, if_true]
      | cons p ps =>
        have hcost : costE p < f ∧ costP ps < f := by
          simp only [costP] at hc
          omega
        have hX := noDigitHead_pairsRest ps r
        have h1p := ihE p (jsonDumpsPairsTail ps ++ rcurly :: r) hcost.1 hX
        have h2p := ihP ps r hcost.2 hr
        show parsePairs (f + 1)
            ((chars (", ") ++ jsonDumpsEntry p ++ jsonDumpsPairsTail ps) ++ rcurly :: r)
          = some (p :: ps, r)
        have hs : (chars (", ") ++ jsonDumpsEntry p ++ jsonDumpsPairsTail ps) ++ rcurly :: r
            = ',' :: ' ' :: (jsonDumpsEntry p ++ (jsonDumpsPairsTail ps ++ rcurly :: r)) := by
          rw [show chars (", ") = ',' :: [' '] from rfl]
          simp
        rw [hs]
        unfold parsePairs
        have hpre : isPre (chars (", "))
            (',' :: ' ' :: (jsonDumpsEntry p ++ (jsonDumpsPairsTail ps ++ rcurly :: r)))
            = true := by
          show isPre (chars (", "))
            (chars (", ") ++ (jsonDumpsEntry p ++ (jsonDumpsPairsTail ps ++ rcurly :: r)))
            = true
          exact isPre_self_append _ _
        simp only [show ((',' : Char) == rcurly) = false from rfl,
          Bool.false_eq_true, if_false, hpre, if_true]
        rw [show (',' :: ' ' :: (jsonDumpsEntry p ++ (jsonDumpsPairsTail ps ++ rcurly :: r))).drop 2
          = jsonDumpsEntry p ++ (jsonDumpsPairsTail ps ++ rcurly :: r) from rfl]
        rw [h1p]
        simp [h2p]

theorem jsonParse_dumps (v : Value) : jsonParse (jsonDumps v) = some v := by
  unfold jsonParse
  have hc : costV v < (jsonDumps v).length + 1 := Nat.lt_succ_of_le (costV_le v)
  have h := (parse_dumps ((jsonDumps v).length + 1)).1 v [] hc trivial
  rw [List.append_nil] at h
  rw [h]

theorem isScalar_sanitizeValue (v : Value) : isScalar (sanitizeValue v) = true := by
  cases v <;> rfl

/-- C6: every value of the sanitized output is a primitive scalar; a list
value sanitizes to the comma-join of the string forms of its elements
(the empty list to the empty string), a `None` value to the empty string,
and a dict value to JSON text that parses back to an equivalent
structure. -/
theorem c6_sanitize_shapes :
    (∀ m : List (Str × Value),
      (sanitize_metadata m).all (fun kv => isScalar kv.2) = true)
    ∧ sanitizeValue .vnone = .vstr []
    ∧ (∀ l : List Value,
        sanitizeValue (.vlist l) = .vstr (joinSep [','] (l.map pyStr)))
    ∧ (∀ d : List (Str × Value),
        sanitizeValue (.vdict d) = .vstr (jsonDumps (.vdict d))
        ∧ jsonParse (jsonDumps (.vdict d)) = some (.vdict d)) := by
  refine ⟨?_, rfl, ?_, ?_⟩
  · intro m
    rw [List.all_eq_true]
    intro kv hkv
    unfold sanitize_metadata at hkv
    obtain ⟨p, _, rfl⟩ := List.mem_map.mp hkv
    exact isScalar_sanitizeValue p.2
  · intro l
    cases l with
    | nil => rfl
    | cons v vs => rfl
  · intro d
    exact ⟨rfl, jsonParse_dumps (.vdict d)⟩

end SchemaRAG
